import Mathlib

/-!
Verification of the snapshot-reconciliation core of plex-collector (main.go).

Modelling conventions:
- Go integers are modelled as Lean Int (no claim depends on 64-bit overflow).
- time.Time values are modelled as Int Unix seconds; time.Time.Before is <.
  The zero time.Time (year 1 UTC) corresponds to Unix second -62135596800.
- Prometheus float64 gauge cells are modelled as exact Int values; every delta
  applied by the program is an integer (Inc, Dec, Add size, Sub size).
- The Plex HTTP client is modelled as a record of deterministic fetch results
  (PlexClient); a fetch that fails yields Except.error.
- Go maps are modelled as association lists with Go assignment semantics
  (overwrite on existing key); iteration order of the residual map in the
  removal loop is modelled as insertion order (Go randomizes the order; every
  stated property is insensitive to it).
- The unbounded recursion of analyzeItems through GetMetadataChildren is
  modelled with an explicit fuel parameter; exhausted fuel is a fetch-like
  error.
-/

namespace PlexCollector

/-- One part of a media variant (plex.Part); only Size is read by main.go. -/
structure Part where
  size : Int
deriving DecidableEq

/-- A media variant (plex.Media); the fields read by main.go. -/
structure Media where
  id : Int
  deletedAt : Int
  audioChannels : Int
  audioCodec : String
  videoCodec : String
  videoResolution : String
  part : List Part
deriving DecidableEq

/-- A catalog node (plex.Metadata); the fields read by main.go. -/
structure Metadata where
  type : String
  ratingKey : String
  parentRatingKey : String
  grandparentRatingKey : String
  media : List Media
deriving DecidableEq

/-- A container of catalog nodes (plex.MediaContainer); the fields read by main.go. -/
structure MediaContainer where
  librarySectionID : Int
  metadata : List Metadata
deriving DecidableEq

/-- One library directory entry returned by GetLibraries. -/
structure Library where
  key : String
  updatedAt : Int
deriving DecidableEq

/-- The Plex client as seen by Collect: the three fetches it performs. -/
structure PlexClient where
  getLibraries : Except String (List Library)
  getLibraryContent : String → Except String MediaContainer
  getMetadataChildren : String → Except String MediaContainer

/-- func Contains(a []string, x string) bool, main.go lines 18-25. -/
def Contains (a : List String) (x : String) : Bool :=
  match a with
  | [] => false
  | n :: rest => if x = n then true else Contains rest x

/-- type MediaItem, main.go lines 27-38. -/
structure MediaItem where
  id : Int
  audioChannels : Int
  audioCodec : String
  grandParentRatingKey : String
  mediaType : String
  parentRatingKey : String
  sectionKey : String
  size : Int
  videoCodec : String
  videoResolution : String
deriving DecidableEq

/-- func (m *MediaItem) Diff(x *MediaItem) bool, main.go lines 40-58. -/
def MediaItem.Diff (m x : MediaItem) : Bool :=
  if m.audioChannels ≠ x.audioChannels then true
  else if m.audioCodec ≠ x.audioCodec then true
  else if m.videoCodec ≠ x.videoCodec then true
  else if m.videoResolution ≠ x.videoResolution then true
  else false

/-- The label 5-tuple of the two GaugeVecs (main.go lines 61-67 and 239). -/
structure Labels where
  audio_channels : String
  audio_codec : String
  media_type : String
  video_codec : String
  video_resolution : String
deriving DecidableEq

/-- func (m *MediaItem) Gauge, main.go lines 60-68: the label set a media item
maps to (strconv.Itoa on the channel count). -/
def MediaItem.Gauge (m : MediaItem) : Labels :=
  { audio_channels := toString m.audioChannels
    audio_codec := m.audioCodec
    media_type := m.mediaType
    video_codec := m.videoCodec
    video_resolution := m.videoResolution }

/-- A prometheus GaugeVec: a value per label 5-tuple. -/
def GaugeVec := Labels → Int

/-- Inc, Dec, Add and Sub on one cell of a GaugeVec, as a signed adjustment. -/
def GaugeVec.adjust (g : GaugeVec) (l : Labels) (d : Int) : GaugeVec :=
  fun l2 => if l2 = l then g l2 + d else g l2

/-- The pair of gauges mediaItemsCount and mediaItemsBytes (main.go 240-247). -/
structure GaugeState where
  count : GaugeVec
  bytes : GaugeVec

/-- type Collector, main.go lines 70-75 (the client is passed separately). -/
structure Collector where
  lastRun : Int
  mediaItems : List MediaItem
  skippedSectionKeys : List String

/-- Unix seconds of the zero time.Time (January 1 of year 1 UTC): the initial
lastRun of a Collector created by bootstrap. -/
def goZeroTime : Int := -62135596800

/-- The Collector as bootstrap creates it: zero-valued lastRun, nil slices. -/
def emptyCollector : Collector :=
  { lastRun := goZeroTime, mediaItems := [], skippedSectionKeys := [] }

/-- Both gauges at their initial value 0 on every label combination. -/
def zeroGauges : GaugeState :=
  { count := fun _ => 0, bytes := fun _ => 0 }

/-- Sum of part sizes of a media variant, main.go lines 213-217. -/
def sumParts (parts : List Part) : Int :=
  parts.foldl (fun s p => s + p.size) 0

/-- The MediaItem struct literal of main.go lines 219-230. -/
def buildMediaItem (item : Metadata) (container : MediaContainer) (media : Media) : MediaItem :=
  { id := media.id
    audioChannels := media.audioChannels
    audioCodec := media.audioCodec
    grandParentRatingKey := item.grandparentRatingKey
    mediaType := item.type
    parentRatingKey := item.parentRatingKey
    sectionKey := toString container.librarySectionID
    size := sumParts media.part
    videoCodec := media.videoCodec
    videoResolution := media.videoResolution }

/-- The loop body of analyzeItem over item.Media, main.go lines 204-233. -/
def analyzeItemGo (item : Metadata) (container : MediaContainer) : List Media → List MediaItem
  | [] => []
  | media :: rest =>
    if media.deletedAt ≠ 0 then analyzeItemGo item container rest
    else if media.audioChannels = 0 ∧ media.videoResolution = "" then
      analyzeItemGo item container rest
    else buildMediaItem item container media :: analyzeItemGo item container rest

/-- func (c *Collector) analyzeItem, main.go lines 201-236 (it never returns a
non-nil error, so it is pure). -/
def analyzeItem (item : Metadata) (container : MediaContainer) : List MediaItem :=
  analyzeItemGo item container item.media

/-- One level of the loop of analyzeItems over container.Metadata, main.go
lines 168-196. The child argument is the flatten used for the children of a
show/season node, or none once the modelling recursion fuel is exhausted;
structuring the fuel recursion this way keeps the function structurally
recursive, so that it evaluates on concrete catalogs. -/
def analyzeItemsLoop (client : PlexClient)
    (child : Option (MediaContainer → Except String (List MediaItem))) :
    MediaContainer → List Metadata → Except String (List MediaItem)
  | _, [] => Except.ok []
  | container, item :: rest =>
    if item.type = "artist" ∨ item.type = "album" then
      analyzeItemsLoop client child container rest
    else if item.type = "show" ∨ item.type = "season" then
      match client.getMetadataChildren item.ratingKey with
      | Except.error e => Except.error e
      | Except.ok content =>
        match child with
        | none => Except.error "recursion limit exceeded"
        | some f =>
          match f content with
          | Except.error e => Except.error e
          | Except.ok childItems =>
            match analyzeItemsLoop client child container rest with
            | Except.error e => Except.error e
            | Except.ok restItems => Except.ok (childItems ++ restItems)
    else if item.type = "movie" ∨ item.type = "episode" then
      match analyzeItemsLoop client child container rest with
      | Except.error e => Except.error e
      | Except.ok restItems => Except.ok (analyzeItem item container ++ restItems)
    else
      Except.error (String.append "Unknown item type: " item.type)

/-- The loop of analyzeItems at a given recursion fuel: each show/season child
container is flattened with one unit of fuel less. -/
def analyzeItemsGo (client : PlexClient) :
    Nat → MediaContainer → List Metadata → Except String (List MediaItem)
  | 0, container, l => analyzeItemsLoop client none container l
  | Nat.succ fuel2, container, l =>
    analyzeItemsLoop client
      (some (fun content => analyzeItemsGo client fuel2 content content.metadata))
      container l

/-- func (c *Collector) analyzeItems, main.go lines 165-199. -/
def analyzeItems (client : PlexClient) (fuel : Nat) (container : MediaContainer) :
    Except String (List MediaItem) :=
  analyzeItemsGo client fuel container container.metadata

/-- The library loop of Collect, main.go lines 90-111: accumulates the skipped
section keys and the new flat item set, aborting on any fetch/flatten error
(the skipped keys accumulated so far stay written to the Collector, matching
the in-place mutation of c.skippedSectionKeys). -/
def collectLoop (fuel : Nat) (client : PlexClient) (lastRun : Int) :
    List Library → List String → List MediaItem →
    List String × Except String (List MediaItem)
  | [], skipped, acc => (skipped, Except.ok acc)
  | lib :: rest, skipped, acc =>
    if lib.updatedAt < lastRun then
      collectLoop fuel client lastRun rest (skipped ++ [lib.key]) acc
    else
      match client.getLibraryContent lib.key with
      | Except.error e => (skipped, Except.error e)
      | Except.ok content =>
        match analyzeItems client fuel content with
        | Except.error e => (skipped, Except.error e)
        | Except.ok items => collectLoop fuel client lastRun rest skipped (acc ++ items)

/-- Go map lookup on an association list keyed by media item id. -/
def mapLookup (m : List (Int × MediaItem)) (k : Int) : Option MediaItem :=
  match m with
  | [] => none
  | p :: rest => if p.1 = k then some p.2 else mapLookup rest k

/-- Go map assignment: overwrite the value under an existing key, else append. -/
def mapInsert (m : List (Int × MediaItem)) (k : Int) (v : MediaItem) :
    List (Int × MediaItem) :=
  match m with
  | [] => [(k, v)]
  | p :: rest => if p.1 = k then (k, v) :: rest else p :: mapInsert rest k v

/-- Go delete(m, k). -/
def mapDelete (m : List (Int × MediaItem)) (k : Int) : List (Int × MediaItem) :=
  m.filter (fun p => p.1 ≠ k)

/-- The loop of main.go lines 115-117 building oldMediaItemsMap. -/
def buildOldMapFrom (acc : List (Int × MediaItem)) : List MediaItem → List (Int × MediaItem)
  | [] => acc
  | m :: rest => buildOldMapFrom (mapInsert acc m.id m) rest

/-- oldMediaItemsMap of main.go line 113-117. -/
def buildOldMap (items : List MediaItem) : List (Int × MediaItem) :=
  buildOldMapFrom [] items

/-- The diff loop of Collect over the new flat set, main.go lines 122-143.
Returns (residual old map, gauges, added, updated). newMediaItemsMap of lines
119/123 is built by the source but never read, so it is not modelled. -/
def diffLoop :
    List MediaItem → List (Int × MediaItem) → GaugeState → Nat → Nat →
    List (Int × MediaItem) × GaugeState × Nat × Nat
  | [], oldMap, g, added, updated => (oldMap, g, added, updated)
  | item :: rest, oldMap, g, added, updated =>
    match mapLookup oldMap item.id with
    | none =>
      diffLoop rest oldMap
        { count := g.count.adjust item.Gauge 1
          bytes := g.bytes.adjust item.Gauge item.size }
        (added + 1) updated
    | some oldItem =>
      if item.Diff oldItem then
        diffLoop rest (mapDelete oldMap item.id)
          { count := (g.count.adjust oldItem.Gauge (-1)).adjust item.Gauge 1
            bytes := (g.bytes.adjust oldItem.Gauge (-oldItem.size)).adjust item.Gauge item.size }
          added (updated + 1)
      else
        diffLoop rest (mapDelete oldMap item.id) g added updated

/-- The removal loop of Collect over the residual old map, main.go lines
145-155: retained skipped items are appended to the new flat set, the rest are
decremented out of both gauges and counted as removed. -/
def removeLoop (skipped : List String) :
    List (Int × MediaItem) → List MediaItem → GaugeState → Nat →
    List MediaItem × GaugeState × Nat
  | [], items, g, removed => (items, g, removed)
  | p :: rest, items, g, removed =>
    if Contains skipped p.2.sectionKey then
      removeLoop skipped rest (items ++ [p.2]) g removed
    else
      removeLoop skipped rest items
        { count := g.count.adjust p.2.Gauge (-1)
          bytes := g.bytes.adjust p.2.Gauge (-p.2.size) }
        (removed + 1)

/-- The outcome of one Collect call: the Collector state, the gauges, and the
returned error or the (added, updated, removed) counts of the log line. -/
structure CollectResult where
  collector : Collector
  gauges : GaugeState
  result : Except String (Nat × Nat × Nat)

/-- func (c *Collector) Collect() error, main.go lines 77-163. The parameter
now is the value read from time.Now() into newLastRun at line 81, before the
GetLibraries call (the only clock read of the cycle). -/
def Collect (fuel : Nat) (client : PlexClient) (now : Int) (c : Collector)
    (g : GaugeState) : CollectResult :=
  match client.getLibraries with
  | Except.error e =>
    { collector := { c with skippedSectionKeys := [] }, gauges := g
      result := Except.error e }
  | Except.ok libraries =>
    match collectLoop fuel client c.lastRun libraries [] [] with
    | (skipped, Except.error e) =>
      { collector := { c with skippedSectionKeys := skipped }, gauges := g
        result := Except.error e }
    | (skipped, Except.ok newItems) =>
      match diffLoop newItems (buildOldMap c.mediaItems) g 0 0 with
      | (residual, g1, added, updated) =>
        match removeLoop skipped residual newItems g1 0 with
        | (finalItems, g2, removed) =>
          { collector :=
              { lastRun := now, mediaItems := finalItems, skippedSectionKeys := skipped }
            gauges := g2
            result := Except.ok (added, updated, removed) }

/-! ### Basic facts about Diff, Gauge and the loops -/

theorem MediaItem.Diff_self (m : MediaItem) : m.Diff m = false := by
  simp [MediaItem.Diff]

/-- An error return of Collect leaves mediaItems, lastRun and both gauges
exactly as they were (main.go only assigns them at lines 157-158 and only
touches the gauges in the diff and removal loops, all of which come after the
last possible error return). Shared by several claims. -/
theorem Collect_error_preserves (fuel : Nat) (client : PlexClient) (now : Int)
    (c : Collector) (g : GaugeState) (e : String)
    (h : (Collect fuel client now c g).result = Except.error e) :
    (Collect fuel client now c g).collector.mediaItems = c.mediaItems ∧
    (Collect fuel client now c g).collector.lastRun = c.lastRun ∧
    (Collect fuel client now c g).gauges = g := by
  unfold Collect at h ⊢
  cases hlib : client.getLibraries with
  | error e2 => exact ⟨rfl, rfl, rfl⟩
  | ok libraries =>
    rcases hcl : collectLoop fuel client c.lastRun libraries [] [] with ⟨sk, res⟩
    cases res with
    | error e2 => simp [hcl]
    | ok news =>
      simp only [hlib, hcl] at h
      rcases hd : diffLoop news (buildOldMap c.mediaItems) g 0 0 with ⟨residual, g1, a, u⟩
      simp only [hd] at h
      rcases hr : removeLoop sk residual news g1 0 with ⟨fin, g2, r⟩
      simp only [hr] at h
      simp at h

/-- A successful Collect commits exactly the (added, updated, removed) counts
together with the reconciled item list and the new lastRun; this spells out the
success branch once so claim proofs can case on it. -/
theorem Collect_success_shape (fuel : Nat) (client : PlexClient) (now : Int)
    (c : Collector) (g : GaugeState) (s : Nat × Nat × Nat)
    (h : (Collect fuel client now c g).result = Except.ok s) :
    ∃ libraries sk news,
      client.getLibraries = Except.ok libraries ∧
      collectLoop fuel client c.lastRun libraries [] [] = (sk, Except.ok news) ∧
      (Collect fuel client now c g).collector.lastRun = now ∧
      (Collect fuel client now c g).collector.skippedSectionKeys = sk ∧
      (Collect fuel client now c g).collector.mediaItems =
        (removeLoop sk (diffLoop news (buildOldMap c.mediaItems) g 0 0).1 news
          (diffLoop news (buildOldMap c.mediaItems) g 0 0).2.1 0).1 ∧
      (Collect fuel client now c g).gauges =
        (removeLoop sk (diffLoop news (buildOldMap c.mediaItems) g 0 0).1 news
          (diffLoop news (buildOldMap c.mediaItems) g 0 0).2.1 0).2.1 := by
  unfold Collect at h ⊢
  cases hlib : client.getLibraries with
  | error e2 => simp only [hlib] at h; simp at h
  | ok libraries =>
    rcases hcl : collectLoop fuel client c.lastRun libraries [] [] with ⟨sk, res⟩
    cases res with
    | error e2 => simp only [hlib, hcl] at h; simp at h
    | ok news =>
      refine ⟨libraries, sk, news, rfl, hcl, ?_⟩
      simp only [hcl]
      rcases hd : diffLoop news (buildOldMap c.mediaItems) g 0 0 with ⟨residual, g1, a, u⟩
      rcases hr : removeLoop sk residual news g1 0 with ⟨fin, g2, r⟩
      simp

/-! ### Concrete fixtures used by counterexamples and witnesses -/

/-- A client whose library-list fetch fails. -/
def errClient : PlexClient :=
  { getLibraries := Except.error "connection refused"
    getLibraryContent := fun _ => Except.error "connection refused"
    getMetadataChildren := fun _ => Except.error "connection refused" }

/-- A client with no libraries at all. -/
def emptyClient : PlexClient :=
  { getLibraries := Except.ok []
    getLibraryContent := fun _ => Except.error "unreachable"
    getMetadataChildren := fun _ => Except.error "unreachable" }

/-- A collector state carrying a skip key from the previous cycle. -/
def collectorWithSkip : Collector :=
  { lastRun := 0, mediaItems := [], skippedSectionKeys := ["1"] }

/-- A 2-channel aac/h264/1080 movie item of 1000 bytes. -/
def itemA : MediaItem :=
  { id := 1, audioChannels := 2, audioCodec := "aac", grandParentRatingKey := ""
    mediaType := "movie", parentRatingKey := "", sectionKey := "1", size := 1000
    videoCodec := "h264", videoResolution := "1080" }

/-- itemA with a different size only (untracked field). -/
def itemASize : MediaItem := { itemA with size := 2000 }

/-- itemA with a different audio codec (tracked field). -/
def itemACodec : MediaItem := { itemA with audioCodec := "dts" }

/-- itemA with a different media type only (label field outside the diff set). -/
def itemAType : MediaItem := { itemA with mediaType := "episode" }

/-! ### C9: lastRefreshTime committed on success is the cycle-start timestamp -/

/-- Claim C9: on every successful Collect cycle the committed lastRun equals
the now value read into newLastRun before the GetLibraries call (the only
clock read of the cycle), not a later time. -/
theorem claim_C9 (fuel : Nat) (client : PlexClient) (now : Int) (c : Collector)
    (g : GaugeState) (s : Nat × Nat × Nat)
    (h : (Collect fuel client now c g).result = Except.ok s) :
    (Collect fuel client now c g).collector.lastRun = now := by
  obtain ⟨_, _, _, _, _, hlr, _⟩ := Collect_success_shape fuel client now c g s h
  exact hlr

theorem claim_C9_witness :
    (Collect 1 emptyClient 42 emptyCollector zeroGauges).collector.lastRun = 42 :=
  claim_C9 1 emptyClient 42 emptyCollector zeroGauges (0, 0, 0) rfl

/-! ### C2: an aborted cycle — what is and is not preserved -/

/-- Counterexample to claim C2 as stated: Collect resets skippedSectionKeys at
the very start of the cycle (main.go line 78), before any fetch, so a cycle
aborted by a GetLibraries error does mutate skippedSectionKeys. -/
theorem claim_C2_counterexample :
    (Collect 1 errClient 5 collectorWithSkip zeroGauges).result =
      Except.error "connection refused" ∧
    (Collect 1 errClient 5 collectorWithSkip zeroGauges).collector.skippedSectionKeys ≠
      collectorWithSkip.skippedSectionKeys :=
  ⟨rfl, by decide⟩

/-- Claim C2 as amended: a cycle aborted by any fetch or flatten error
propagates the error and mutates neither mediaItems, nor lastRun, nor either
gauge; skippedSectionKeys however is reset at cycle start and may hold the
partially recomputed skip keys of the aborted cycle. -/
theorem claim_C2 (fuel : Nat) (client : PlexClient) (now : Int) (c : Collector)
    (g : GaugeState) (e : String)
    (h : (Collect fuel client now c g).result = Except.error e) :
    (Collect fuel client now c g).collector.mediaItems = c.mediaItems ∧
    (Collect fuel client now c g).collector.lastRun = c.lastRun ∧
    (Collect fuel client now c g).gauges = g :=
  Collect_error_preserves fuel client now c g e h

theorem claim_C2_witness :
    (Collect 1 errClient 5 collectorWithSkip zeroGauges).collector.mediaItems =
      collectorWithSkip.mediaItems ∧
    (Collect 1 errClient 5 collectorWithSkip zeroGauges).collector.lastRun =
      collectorWithSkip.lastRun ∧
    (Collect 1 errClient 5 collectorWithSkip zeroGauges).gauges = zeroGauges :=
  claim_C2 1 errClient 5 collectorWithSkip zeroGauges "connection refused" rfl

/-! ### C4: unchanged classification when no tracked field differs -/

/-- Claim C4: an item present in both snapshots under the same id whose four
tracked fields all agree is classified unchanged by the diff loop: Diff is
false and the loop step consumes the old entry without touching either gauge,
the added count or the updated count — even when sizeBytes or the hierarchy
back-references differ. -/
theorem claim_C4 (x y : MediaItem) (rest : List MediaItem)
    (M : List (Int × MediaItem)) (g : GaugeState) (a u : Nat)
    (hlook : mapLookup M x.id = some y)
    (h1 : x.audioChannels = y.audioChannels) (h2 : x.audioCodec = y.audioCodec)
    (h3 : x.videoCodec = y.videoCodec) (h4 : x.videoResolution = y.videoResolution) :
    x.Diff y = false ∧
    diffLoop (x :: rest) M g a u = diffLoop rest (mapDelete M x.id) g a u := by
  have hd : x.Diff y = false := by simp [MediaItem.Diff, h1, h2, h3, h4]
  refine ⟨hd, ?_⟩
  simp [diffLoop, hlook, hd]

theorem claim_C4_witness :
    itemASize.Diff itemA = false ∧
    diffLoop [itemASize] [(1, itemA)] zeroGauges 0 0 =
      diffLoop [] (mapDelete [(1, itemA)] itemASize.id) zeroGauges 0 0 :=
  claim_C4 itemASize itemA [] [(1, itemA)] zeroGauges 0 0 rfl rfl rfl rfl rfl

/-! ### C5: updated classification moves both gauges old-to-new -/

/-- Claim C5: an item present in both snapshots under the same id for which at
least one tracked field differs is classified updated: Diff is true and the
loop step performs exactly one decrement of the count gauge and one
subtraction of the old size under the old label set, and one increment and one
addition of the new size under the new label set, bumping updated by one. -/
theorem claim_C5 (x y : MediaItem) (rest : List MediaItem)
    (M : List (Int × MediaItem)) (g : GaugeState) (a u : Nat)
    (hlook : mapLookup M x.id = some y)
    (hne : x.audioChannels ≠ y.audioChannels ∨ x.audioCodec ≠ y.audioCodec ∨
      x.videoCodec ≠ y.videoCodec ∨ x.videoResolution ≠ y.videoResolution) :
    x.Diff y = true ∧
    diffLoop (x :: rest) M g a u =
      diffLoop rest (mapDelete M x.id)
        { count := (g.count.adjust y.Gauge (-1)).adjust x.Gauge 1
          bytes := (g.bytes.adjust y.Gauge (-y.size)).adjust x.Gauge x.size }
        a (u + 1) := by
  have hd : x.Diff y = true := by
    rcases hne with h | h | h | h <;> simp [MediaItem.Diff, h]
  refine ⟨hd, ?_⟩
  simp [diffLoop, hlook, hd]

theorem claim_C5_witness :
    itemACodec.Diff itemA = true ∧
    diffLoop [itemACodec] [(1, itemA)] zeroGauges 0 0 =
      diffLoop [] (mapDelete [(1, itemA)] itemACodec.id)
        { count := (zeroGauges.count.adjust itemA.Gauge (-1)).adjust itemACodec.Gauge 1
          bytes := (zeroGauges.bytes.adjust itemA.Gauge (-itemA.size)).adjust
            itemACodec.Gauge itemACodec.size }
        0 (0 + 1) :=
  claim_C5 itemACodec itemA [] [(1, itemA)] zeroGauges 0 0 rfl (Or.inr (Or.inl (by decide)))

/-! ### C10: a media_type change alone is invisible to the diff -/

/-- Claim C10: an item present in both snapshots under the same id whose
mediaType differs while the four tracked diff fields agree is classified
unchanged — no gauge is touched — even though the old and new records map to
different label 5-tuples, so both gauges stay attributed to the old media_type
partition. -/
theorem claim_C10 (x y : MediaItem) (rest : List MediaItem)
    (M : List (Int × MediaItem)) (g : GaugeState) (a u : Nat)
    (hlook : mapLookup M x.id = some y)
    (hmt : x.mediaType ≠ y.mediaType)
    (h1 : x.audioChannels = y.audioChannels) (h2 : x.audioCodec = y.audioCodec)
    (h3 : x.videoCodec = y.videoCodec) (h4 : x.videoResolution = y.videoResolution) :
    x.Diff y = false ∧
    x.Gauge ≠ y.Gauge ∧
    diffLoop (x :: rest) M g a u = diffLoop rest (mapDelete M x.id) g a u := by
  have hd : x.Diff y = false := by simp [MediaItem.Diff, h1, h2, h3, h4]
  refine ⟨hd, ?_, by simp [diffLoop, hlook, hd]⟩
  intro hg
  exact hmt (congrArg Labels.media_type hg)

theorem claim_C10_witness :
    itemAType.Diff itemA = false ∧
    itemAType.Gauge ≠ itemA.Gauge ∧
    diffLoop [itemAType] [(1, itemA)] zeroGauges 0 0 =
      diffLoop [] (mapDelete [(1, itemA)] itemAType.id) zeroGauges 0 0 :=
  claim_C10 itemAType itemA [] [(1, itemA)] zeroGauges 0 0 rfl (by decide) rfl rfl rfl rfl

/-! ### C8: node-type classification in the flattener -/

/-- A metadata node of a type outside the six known ones makes one loop level
of the flattener fail, whatever the list, client and child flatten hold. -/
theorem analyzeItemsLoop_unknown_type (client : PlexClient)
    (child : Option (MediaContainer → Except String (List MediaItem)))
    (container : MediaContainer) (l : List Metadata) (item : Metadata)
    (hmem : item ∈ l)
    (h1 : ¬(item.type = "artist" ∨ item.type = "album"))
    (h2 : ¬(item.type = "show" ∨ item.type = "season"))
    (h3 : ¬(item.type = "movie" ∨ item.type = "episode")) :
    ∃ e, analyzeItemsLoop client child container l = Except.error e := by
  induction l with
  | nil => cases hmem
  | cons hd tl ih =>
    rcases List.mem_cons.mp hmem with rfl | hmem2
    · exact ⟨String.append "Unknown item type: " item.type,
        by simp only [analyzeItemsLoop, if_neg h1, if_neg h2, if_neg h3]⟩
    · by_cases c1 : hd.type = "artist" ∨ hd.type = "album"
      · obtain ⟨e, he⟩ := ih hmem2
        exact ⟨e, by simp only [analyzeItemsLoop, if_pos c1]; exact he⟩
      · by_cases c2 : hd.type = "show" ∨ hd.type = "season"
        · cases hch : client.getMetadataChildren hd.ratingKey with
          | error e =>
            exact ⟨e, by simp only [analyzeItemsLoop, if_neg c1, if_pos c2, hch]⟩
          | ok content =>
            cases child with
            | none =>
              exact ⟨"recursion limit exceeded",
                by simp only [analyzeItemsLoop, if_neg c1, if_pos c2, hch]⟩
            | some f =>
              cases hc : f content with
              | error e =>
                exact ⟨e, by simp only [analyzeItemsLoop, if_neg c1, if_pos c2, hch, hc]⟩
              | ok childItems =>
                obtain ⟨e, he⟩ := ih hmem2
                exact ⟨e, by
                  simp only [analyzeItemsLoop, if_neg c1, if_pos c2, hch, hc, he]⟩
        · by_cases c3 : hd.type = "movie" ∨ hd.type = "episode"
          · obtain ⟨e, he⟩ := ih hmem2
            exact ⟨e, by
              simp only [analyzeItemsLoop, if_neg c1, if_neg c2, if_pos c3, he]⟩
          · exact ⟨String.append "Unknown item type: " hd.type,
              by simp only [analyzeItemsLoop, if_neg c1, if_neg c2, if_neg c3]⟩

/-- The unknown-type failure lifted to the fueled flattener. -/
theorem analyzeItemsGo_unknown_type (client : PlexClient) (fuel : Nat)
    (container : MediaContainer) (l : List Metadata) (item : Metadata)
    (hmem : item ∈ l)
    (h1 : ¬(item.type = "artist" ∨ item.type = "album"))
    (h2 : ¬(item.type = "show" ∨ item.type = "season"))
    (h3 : ¬(item.type = "movie" ∨ item.type = "episode")) :
    ∃ e, analyzeItemsGo client fuel container l = Except.error e := by
  cases fuel with
  | zero => exact analyzeItemsLoop_unknown_type client none container l item hmem h1 h2 h3
  | succ fuel2 =>
    exact analyzeItemsLoop_unknown_type client
      (some (fun content => analyzeItemsGo client fuel2 content content.metadata))
      container l item hmem h1 h2 h3

/-- An artist or album node contributes nothing and triggers no child fetch:
the flatten of the remaining nodes is returned unchanged. -/
theorem analyzeItemsGo_music_skip (client : PlexClient) (fuel : Nat)
    (container : MediaContainer) (item : Metadata) (rest : List Metadata)
    (h : item.type = "artist" ∨ item.type = "album") :
    analyzeItemsGo client fuel container (item :: rest) =
      analyzeItemsGo client fuel container rest := by
  cases fuel with
  | zero => simp only [analyzeItemsGo, analyzeItemsLoop, if_pos h]
  | succ fuel2 => simp only [analyzeItemsGo, analyzeItemsLoop, if_pos h]

/-- Claim C8: a node whose type is outside {artist, album, show, season,
movie, episode} makes the flatten return an error (never a silent skip); an
artist or album node yields no items and is not recursed into; and an errored
cycle commits nothing: mediaItems, lastRun and both gauges stay untouched. -/
theorem claim_C8 :
    (∀ (client : PlexClient) (fuel : Nat) (container : MediaContainer)
      (l : List Metadata) (item : Metadata), item ∈ l →
      ¬(item.type = "artist" ∨ item.type = "album") →
      ¬(item.type = "show" ∨ item.type = "season") →
      ¬(item.type = "movie" ∨ item.type = "episode") →
      ∃ e, analyzeItemsGo client fuel container l = Except.error e) ∧
    (∀ (client : PlexClient) (fuel : Nat) (container : MediaContainer)
      (item : Metadata) (rest : List Metadata),
      item.type = "artist" ∨ item.type = "album" →
      analyzeItemsGo client fuel container (item :: rest) =
        analyzeItemsGo client fuel container rest) ∧
    (∀ (fuel : Nat) (client : PlexClient) (now : Int) (c : Collector)
      (g : GaugeState) (e : String),
      (Collect fuel client now c g).result = Except.error e →
      (Collect fuel client now c g).collector.mediaItems = c.mediaItems ∧
      (Collect fuel client now c g).collector.lastRun = c.lastRun ∧
      (Collect fuel client now c g).gauges = g) :=
  ⟨analyzeItemsGo_unknown_type, analyzeItemsGo_music_skip, Collect_error_preserves⟩

/-- A node of the unknown type "track". -/
def badItem : Metadata :=
  { type := "track", ratingKey := "r1", parentRatingKey := ""
    grandparentRatingKey := "", media := [] }

/-- An artist node. -/
def artistItem : Metadata :=
  { type := "artist", ratingKey := "r2", parentRatingKey := ""
    grandparentRatingKey := "", media := [] }

/-- A container fixture for the flattener witnesses. -/
def fixtureContainer : MediaContainer :=
  { librarySectionID := 1, metadata := [badItem] }

theorem claim_C8_witness :
    (∃ e, analyzeItemsGo errClient 1 fixtureContainer [badItem] = Except.error e) ∧
    analyzeItemsGo errClient 1 fixtureContainer [artistItem, badItem] =
      analyzeItemsGo errClient 1 fixtureContainer [badItem] :=
  ⟨claim_C8.1 errClient 1 fixtureContainer [badItem] badItem (by simp)
      (by decide) (by decide) (by decide),
    claim_C8.2.1 errClient 1 fixtureContainer artistItem [badItem] (by decide)⟩

/-! ### C6: deleted and degenerate media variants are excluded -/

/-- The exclusion predicate of analyzeItem (main.go lines 205-211): a media
variant is kept when its deletion marker is unset and it is not degenerate. -/
def keepMedia (media : Media) : Bool :=
  decide (media.deletedAt = 0) &&
    !(decide (media.audioChannels = 0) && decide (media.videoResolution = ""))

theorem analyzeItemGo_eq_filter (item : Metadata) (container : MediaContainer)
    (ml : List Media) :
    analyzeItemGo item container ml =
      (ml.filter keepMedia).map (buildMediaItem item container) := by
  induction ml with
  | nil => rfl
  | cons media rest ih =>
    by_cases hdel : media.deletedAt ≠ 0
    · have hk : keepMedia media = false := by
        simp [keepMedia, hdel]
      simp [analyzeItemGo, if_pos hdel, List.filter_cons, hk, ih]
    · by_cases hdeg : media.audioChannels = 0 ∧ media.videoResolution = ""
      · have hk : keepMedia media = false := by
          simp [keepMedia, hdeg.1, hdeg.2]
        simp [analyzeItemGo, if_neg hdel, if_pos hdeg, List.filter_cons, hk, ih]
      · have hk : keepMedia media = true := by
          push_neg at hdel
          simp [keepMedia, hdel]
          exact not_and_or.mp hdeg
        simp [analyzeItemGo, if_neg hdel, if_neg hdeg, List.filter_cons, hk, ih]

theorem keepMedia_eq_true {media : Media} (h : keepMedia media = true) :
    media.deletedAt = 0 ∧ ¬(media.audioChannels = 0 ∧ media.videoResolution = "") := by
  simp only [keepMedia, Bool.and_eq_true, decide_eq_true_eq, Bool.not_eq_true',
    Bool.and_eq_false_iff, decide_eq_false_iff_not] at h
  refine ⟨h.1, fun hc => ?_⟩
  rcases h.2 with h2 | h2
  · exact h2 hc.1
  · exact h2 hc.2

/-- One loop level of the flattener only emits items stemming from kept media
variants, provided the child flatten (when present) does so too. -/
theorem analyzeItemsLoop_provenance (client : PlexClient)
    (child : Option (MediaContainer → Except String (List MediaItem)))
    (hchild : ∀ f, child = some f →
      ∀ (content : MediaContainer) (items : List MediaItem) (m : MediaItem),
        f content = Except.ok items → m ∈ items →
        ∃ (item : Metadata) (c2 : MediaContainer) (media : Media),
          media ∈ item.media ∧ media.deletedAt = 0 ∧
          ¬(media.audioChannels = 0 ∧ media.videoResolution = "") ∧
          m = buildMediaItem item c2 media) (container : MediaContainer) :
    ∀ (l : List Metadata) (items : List MediaItem) (m : MediaItem),
      analyzeItemsLoop client child container l = Except.ok items → m ∈ items →
      ∃ (item : Metadata) (c2 : MediaContainer) (media : Media),
        media ∈ item.media ∧ media.deletedAt = 0 ∧
        ¬(media.audioChannels = 0 ∧ media.videoResolution = "") ∧
        m = buildMediaItem item c2 media := by
  intro l
  induction l with
  | nil =>
    intro items m h hm
    simp only [analyzeItemsLoop] at h
    cases h
    cases hm
  | cons hd tl ihl =>
    intro items m h hm
    by_cases c1 : hd.type = "artist" ∨ hd.type = "album"
    · simp only [analyzeItemsLoop, if_pos c1] at h
      exact ihl items m h hm
    · by_cases c2 : hd.type = "show" ∨ hd.type = "season"
      · cases hch : client.getMetadataChildren hd.ratingKey with
        | error e =>
          simp only [analyzeItemsLoop, if_neg c1, if_pos c2, hch] at h
          exact Except.noConfusion h
        | ok content =>
          cases child with
          | none =>
            simp only [analyzeItemsLoop, if_neg c1, if_pos c2, hch] at h
            exact Except.noConfusion h
          | some f =>
            cases hc : f content with
            | error e =>
              simp only [analyzeItemsLoop, if_neg c1, if_pos c2, hch, hc] at h
              exact Except.noConfusion h
            | ok childItems =>
              cases ht : analyzeItemsLoop client (some f) container tl with
              | error e =>
                simp only [analyzeItemsLoop, if_neg c1, if_pos c2, hch, hc, ht] at h
                exact Except.noConfusion h
              | ok restItems =>
                simp only [analyzeItemsLoop, if_neg c1, if_pos c2, hch, hc, ht,
                  Except.ok.injEq] at h
                subst h
                rcases List.mem_append.mp hm with hmem | hmem
                · exact hchild f rfl content childItems m hc hmem
                · exact ihl restItems m ht hmem
      · by_cases c3 : hd.type = "movie" ∨ hd.type = "episode"
        · cases ht : analyzeItemsLoop client child container tl with
          | error e =>
            simp only [analyzeItemsLoop, if_neg c1, if_neg c2, if_pos c3, ht] at h
            exact Except.noConfusion h
          | ok restItems =>
            simp only [analyzeItemsLoop, if_neg c1, if_neg c2, if_pos c3, ht,
              Except.ok.injEq] at h
            subst h
            rcases List.mem_append.mp hm with hmem | hmem
            · rw [analyzeItem, analyzeItemGo_eq_filter] at hmem
              obtain ⟨media, hmf, hbuild⟩ := List.mem_map.mp hmem
              obtain ⟨hmm, hk⟩ := List.mem_filter.mp hmf
              obtain ⟨hdel, hdeg⟩ := keepMedia_eq_true hk
              exact ⟨hd, container, media, hmm, hdel, hdeg, hbuild.symm⟩
            · exact ihl restItems m ht hmem
        · simp only [analyzeItemsLoop, if_neg c1, if_neg c2, if_neg c3] at h
          exact Except.noConfusion h

/-- Every item produced by the flattener comes from a media variant that is
neither deleted nor degenerate. -/
theorem analyzeItemsGo_provenance (client : PlexClient) : ∀ (fuel : Nat)
    (container : MediaContainer) (l : List Metadata) (items : List MediaItem)
    (m : MediaItem),
    analyzeItemsGo client fuel container l = Except.ok items → m ∈ items →
    ∃ (item : Metadata) (c2 : MediaContainer) (media : Media),
      media ∈ item.media ∧ media.deletedAt = 0 ∧
      ¬(media.audioChannels = 0 ∧ media.videoResolution = "") ∧
      m = buildMediaItem item c2 media := by
  intro fuel
  induction fuel with
  | zero =>
    intro container l items m h hm
    exact analyzeItemsLoop_provenance client none (fun f hf => Option.noConfusion hf)
      container l items m h hm
  | succ fuel2 ih =>
    intro container l items m h hm
    refine analyzeItemsLoop_provenance client
      (some (fun content => analyzeItemsGo client fuel2 content content.metadata))
      ?_ container l items m h hm
    intro f hf content items2 m2 h2 hm2
    cases hf
    exact ih content content.metadata items2 m2 h2 hm2

theorem mem_values_mapInsert {acc : List (Int × MediaItem)} {k : Int}
    {v m : MediaItem} (h : m ∈ (mapInsert acc k v).map Prod.snd) :
    m ∈ acc.map Prod.snd ∨ m = v := by
  induction acc with
  | nil => simp [mapInsert] at h; exact Or.inr h
  | cons p rest ih =>
    by_cases hk : p.1 = k
    · simp only [mapInsert, if_pos hk, List.map_cons, List.mem_cons] at h
      rcases h with h | h
      · exact Or.inr h
      · exact Or.inl (by
          simp only [List.map_cons, List.mem_cons]
          exact Or.inr h)
    · simp only [mapInsert, if_neg hk, List.map_cons, List.mem_cons] at h
      rcases h with h | h
      · exact Or.inl (by
          simp only [List.map_cons, List.mem_cons]
          exact Or.inl h)
      · rcases ih h with h2 | h2
        · exact Or.inl (by
            simp only [List.map_cons, List.mem_cons]
            exact Or.inr h2)
        · exact Or.inr h2

theorem mem_values_buildOldMapFrom {l : List MediaItem}
    {acc : List (Int × MediaItem)} {m : MediaItem}
    (h : m ∈ (buildOldMapFrom acc l).map Prod.snd) :
    m ∈ acc.map Prod.snd ∨ m ∈ l := by
  induction l generalizing acc with
  | nil => exact Or.inl h
  | cons x rest ih =>
    simp only [buildOldMapFrom] at h
    rcases ih h with h2 | h2
    · rcases mem_values_mapInsert h2 with h3 | h3
      · exact Or.inl h3
      · exact Or.inr (h3 ▸ List.mem_cons_self _ _)
    · exact Or.inr (List.mem_cons_of_mem _ h2)

theorem mem_values_buildOldMap {items : List MediaItem} {m : MediaItem}
    (h : m ∈ (buildOldMap items).map Prod.snd) : m ∈ items := by
  rcases mem_values_buildOldMapFrom h with h2 | h2
  · simp at h2
  · exact h2

theorem mem_values_mapDelete {M : List (Int × MediaItem)} {k : Int}
    {m : MediaItem} (h : m ∈ (mapDelete M k).map Prod.snd) :
    m ∈ M.map Prod.snd := by
  obtain ⟨p, hp, hpm⟩ := List.mem_map.mp h
  exact List.mem_map.mpr ⟨p, List.mem_of_mem_filter hp, hpm⟩

theorem diffLoop_residual_subset {news : List MediaItem}
    {M : List (Int × MediaItem)} {g : GaugeState} {a u : Nat} {m : MediaItem}
    (h : m ∈ (diffLoop news M g a u).1.map Prod.snd) : m ∈ M.map Prod.snd := by
  induction news generalizing M g a u with
  | nil => exact h
  | cons x rest ih =>
    simp only [diffLoop] at h
    cases hl : mapLookup M x.id with
    | none =>
      simp only [hl] at h
      exact ih h
    | some y =>
      simp only [hl] at h
      by_cases hd : x.Diff y = true
      · rw [if_pos hd] at h
        exact mem_values_mapDelete (ih h)
      · rw [if_neg hd] at h
        exact mem_values_mapDelete (ih h)

theorem removeLoop_mem {sk : List String} {R : List (Int × MediaItem)}
    {items : List MediaItem} {g : GaugeState} {r : Nat} {m : MediaItem}
    (h : m ∈ (removeLoop sk R items g r).1) :
    m ∈ items ∨ m ∈ R.map Prod.snd := by
  induction R generalizing items g r with
  | nil => exact Or.inl h
  | cons p rest ih =>
    simp only [removeLoop] at h
    by_cases hc : Contains sk p.2.sectionKey = true
    · rw [if_pos hc] at h
      rcases ih h with h2 | h2
      · rcases List.mem_append.mp h2 with h3 | h3
        · exact Or.inl h3
        · refine Or.inr ?_
          simp only [List.map_cons, List.mem_cons]
          exact Or.inl (List.mem_singleton.mp h3)
      · refine Or.inr ?_
        simp only [List.map_cons, List.mem_cons]
        exact Or.inr h2
    · rw [if_neg hc] at h
      rcases ih h with h2 | h2
      · exact Or.inl h2
      · refine Or.inr ?_
        simp only [List.map_cons, List.mem_cons]
        exact Or.inr h2

/-- Every item of the committed snapshot comes from the previous snapshot or
from the freshly flattened set of the cycle. -/
theorem Collect_snapshot_origin (fuel : Nat) (client : PlexClient) (now : Int)
    (c : Collector) (g : GaugeState) (m : MediaItem)
    (hm : m ∈ (Collect fuel client now c g).collector.mediaItems) :
    m ∈ c.mediaItems ∨
    ∃ libraries sk news, client.getLibraries = Except.ok libraries ∧
      collectLoop fuel client c.lastRun libraries [] [] = (sk, Except.ok news) ∧
      m ∈ news := by
  cases hres : (Collect fuel client now c g).result with
  | error e =>
    obtain ⟨hitems, _, _⟩ := Collect_error_preserves fuel client now c g e hres
    rw [hitems] at hm
    exact Or.inl hm
  | ok s =>
    obtain ⟨libraries, sk, news, hlib, hcl, _, _, hitems, _⟩ :=
      Collect_success_shape fuel client now c g s hres
    rw [hitems] at hm
    rcases removeLoop_mem hm with h2 | h2
    · exact Or.inr ⟨libraries, sk, news, hlib, hcl, h2⟩
    · exact Or.inl (mem_values_buildOldMap (diffLoop_residual_subset h2))

/-- Claim C6: a media variant that is marked deleted, or whose audio-channel
count is zero while its video resolution is empty, is never emitted by the
flattener (analyzeItem keeps exactly the other variants), every flattened item
provably stems from a kept variant, and every snapshot item stems from a
previous snapshot or a flatten — so excluded variants never reach a snapshot
or a gauge. -/
theorem claim_C6 :
    (∀ (item : Metadata) (container : MediaContainer),
      analyzeItem item container =
        (item.media.filter keepMedia).map (buildMediaItem item container)) ∧
    (∀ (client : PlexClient) (fuel : Nat) (container : MediaContainer)
      (l : List Metadata) (items : List MediaItem) (m : MediaItem),
      analyzeItemsGo client fuel container l = Except.ok items → m ∈ items →
      ∃ (item : Metadata) (c2 : MediaContainer) (media : Media),
        media ∈ item.media ∧ media.deletedAt = 0 ∧
        ¬(media.audioChannels = 0 ∧ media.videoResolution = "") ∧
        m = buildMediaItem item c2 media) ∧
    (∀ (fuel : Nat) (client : PlexClient) (now : Int) (c : Collector)
      (g : GaugeState) (m : MediaItem),
      m ∈ (Collect fuel client now c g).collector.mediaItems →
      m ∈ c.mediaItems ∨
      ∃ libraries sk news, client.getLibraries = Except.ok libraries ∧
        collectLoop fuel client c.lastRun libraries [] [] = (sk, Except.ok news) ∧
        m ∈ news) :=
  ⟨fun item container => analyzeItemGo_eq_filter item container item.media,
    analyzeItemsGo_provenance, Collect_snapshot_origin⟩

/-- A healthy 2-channel aac/h264/1080 variant of 1000 bytes. -/
def goodMedia1 : Media :=
  { id := 1, deletedAt := 0, audioChannels := 2, audioCodec := "aac"
    videoCodec := "h264", videoResolution := "1080", part := [{ size := 1000 }] }

/-- A variant carrying a deletion marker. -/
def deletedMedia : Media :=
  { id := 2, deletedAt := 7, audioChannels := 2, audioCodec := "aac"
    videoCodec := "h264", videoResolution := "1080", part := [{ size := 500 }] }

/-- A degenerate placeholder variant: zero channels and empty resolution. -/
def degenerateMedia : Media :=
  { id := 3, deletedAt := 0, audioChannels := 0, audioCodec := ""
    videoCodec := "", videoResolution := "", part := [] }

/-- A movie node carrying one kept and two excluded variants. -/
def movieItem : Metadata :=
  { type := "movie", ratingKey := "m1", parentRatingKey := ""
    grandparentRatingKey := "", media := [deletedMedia, goodMedia1, degenerateMedia] }

/-- The library content container of the C6/C7 fixtures. -/
def movieContainer : MediaContainer :=
  { librarySectionID := 1, metadata := [movieItem] }

theorem claim_C6_witness :
    ∃ (item : Metadata) (c2 : MediaContainer) (media : Media),
      media ∈ item.media ∧ media.deletedAt = 0 ∧
      ¬(media.audioChannels = 0 ∧ media.videoResolution = "") ∧
      buildMediaItem movieItem movieContainer goodMedia1 =
        buildMediaItem item c2 media :=
  claim_C6.2.1 errClient 1 movieContainer [movieItem]
    [buildMediaItem movieItem movieContainer goodMedia1]
    (buildMediaItem movieItem movieContainer goodMedia1) (by rfl) (by simp)

/-! ### Association-list map facts -/

theorem Contains_eq_mem (a : List String) (x : String) :
    Contains a x = true ↔ x ∈ a := by
  induction a with
  | nil => simp [Contains]
  | cons n rest ih =>
    by_cases hx : x = n
    · simp [Contains, hx]
    · simp [Contains, hx, ih]

theorem mapLookup_mapDelete_ne {M : List (Int × MediaItem)} {k k2 : Int}
    (h : k2 ≠ k) : mapLookup (mapDelete M k) k2 = mapLookup M k2 := by
  induction M with
  | nil => rfl
  | cons p rest ih =>
    by_cases hp : p.1 = k
    · have hne : ¬p.1 = k2 := fun hc => h (by rw [← hc]; exact hp)
      have hstep : mapDelete (p :: rest) k = mapDelete rest k := by
        simp [mapDelete, List.filter_cons, hp]
      rw [hstep, ih]
      simp only [mapLookup, if_neg hne]
    · have hstep : mapDelete (p :: rest) k = p :: mapDelete rest k := by
        simp [mapDelete, List.filter_cons, hp]
      rw [hstep]
      by_cases hp2 : p.1 = k2
      · simp only [mapLookup, if_pos hp2]
      · simp only [mapLookup, if_neg hp2]
        exact ih

theorem mapLookup_mem {M : List (Int × MediaItem)} {k : Int} {v : MediaItem}
    (h : mapLookup M k = some v) : (k, v) ∈ M := by
  induction M with
  | nil => cases h
  | cons p rest ih =>
    by_cases hp : p.1 = k
    · simp only [mapLookup, if_pos hp] at h
      cases h
      exact (show p = (k, p.2) by rw [← hp]) ▸ List.mem_cons_self _ _
    · simp only [mapLookup, if_neg hp] at h
      exact List.mem_cons_of_mem _ (ih h)

theorem mapInsert_not_mem_key {acc : List (Int × MediaItem)} {k : Int}
    {v : MediaItem} (h : k ∉ acc.map Prod.fst) :
    mapInsert acc k v = acc ++ [(k, v)] := by
  induction acc with
  | nil => rfl
  | cons p rest ih =>
    simp only [List.map_cons, List.mem_cons] at h
    push_neg at h
    have hne : ¬p.1 = k := fun hc => h.1 hc.symm
    simp only [mapInsert, if_neg hne, List.cons_append, List.cons.injEq, true_and]
    exact ih h.2

/-- Building the Go map from a duplicate-free item list appends one entry per
item in order. -/
theorem buildOldMapFrom_eq {l : List MediaItem} :
    ∀ (acc : List (Int × MediaItem)),
    (acc.map Prod.fst ++ l.map (fun m => m.id)).Nodup →
    buildOldMapFrom acc l = acc ++ l.map (fun m => (m.id, m)) := by
  induction l with
  | nil => intro acc _; simp [buildOldMapFrom]
  | cons x rest ih =>
    intro acc hnd
    have hx : x.id ∉ acc.map Prod.fst := by
      have hdisj := List.disjoint_of_nodup_append hnd
      intro hc
      exact hdisj hc (by simp)
    have hins : mapInsert acc x.id x = acc ++ [(x.id, x)] := mapInsert_not_mem_key hx
    have hnd2 : ((acc ++ [(x.id, x)]).map Prod.fst ++ rest.map (fun m => m.id)).Nodup := by
      simp only [List.map_append, List.map_cons, List.map_nil, List.append_assoc,
        List.singleton_append]
      simpa using hnd
    simp only [buildOldMapFrom, hins]
    rw [ih (acc ++ [(x.id, x)]) hnd2]
    simp

theorem buildOldMap_eq {l : List MediaItem}
    (hnd : (l.map (fun m => m.id)).Nodup) :
    buildOldMap l = l.map (fun m => (m.id, m)) := by
  have h := buildOldMapFrom_eq [] (by simpa using hnd)
  simpa [buildOldMap] using h

theorem mapLookup_map_pair_self {l : List MediaItem}
    (hnd : (l.map (fun m => m.id)).Nodup) {x : MediaItem} (hx : x ∈ l) :
    mapLookup (l.map (fun m => (m.id, m))) x.id = some x := by
  induction l with
  | nil => cases hx
  | cons y rest ih =>
    simp only [List.map_cons, List.nodup_cons] at hnd
    rcases List.mem_cons.mp hx with rfl | hx2
    · simp [mapLookup]
    · have hne : y.id ≠ x.id := by
        intro hc
        exact hnd.1 (hc ▸ List.mem_map.mpr ⟨x, hx2, rfl⟩)
      simp only [mapLookup, if_neg hne]
      exact ih hnd.2 hx2

/-! ### Step equations of the diff and removal loops -/

theorem diffLoop_cons_none (x : MediaItem) (rest : List MediaItem)
    (M : List (Int × MediaItem)) (g : GaugeState) (a u : Nat)
    (hl : mapLookup M x.id = none) :
    diffLoop (x :: rest) M g a u =
      diffLoop rest M
        { count := g.count.adjust x.Gauge 1
          bytes := g.bytes.adjust x.Gauge x.size } (a + 1) u := by
  simp only [diffLoop, hl]

theorem diffLoop_cons_some_diff (x y : MediaItem) (rest : List MediaItem)
    (M : List (Int × MediaItem)) (g : GaugeState) (a u : Nat)
    (hl : mapLookup M x.id = some y) (hd : x.Diff y = true) :
    diffLoop (x :: rest) M g a u =
      diffLoop rest (mapDelete M x.id)
        { count := (g.count.adjust y.Gauge (-1)).adjust x.Gauge 1
          bytes := (g.bytes.adjust y.Gauge (-y.size)).adjust x.Gauge x.size }
        a (u + 1) := by
  simp only [diffLoop, hl, hd, if_true]

theorem diffLoop_cons_some_nodiff (x y : MediaItem) (rest : List MediaItem)
    (M : List (Int × MediaItem)) (g : GaugeState) (a u : Nat)
    (hl : mapLookup M x.id = some y) (hd : x.Diff y = false) :
    diffLoop (x :: rest) M g a u =
      diffLoop rest (mapDelete M x.id) g a u := by
  simp only [diffLoop, hl, hd, Bool.false_eq_true, if_false]

theorem removeLoop_cons_skip (sk : List String) (p : Int × MediaItem)
    (R : List (Int × MediaItem)) (items : List MediaItem) (g : GaugeState)
    (r : Nat) (hc : Contains sk p.2.sectionKey = true) :
    removeLoop sk (p :: R) items g r = removeLoop sk R (items ++ [p.2]) g r := by
  simp only [removeLoop]
  rw [if_pos hc]

theorem removeLoop_cons_remove (sk : List String) (p : Int × MediaItem)
    (R : List (Int × MediaItem)) (items : List MediaItem) (g : GaugeState)
    (r : Nat) (hc : ¬Contains sk p.2.sectionKey = true) :
    removeLoop sk (p :: R) items g r =
      removeLoop sk R items
        { count := g.count.adjust p.2.Gauge (-1)
          bytes := g.bytes.adjust p.2.Gauge (-p.2.size) } (r + 1) := by
  simp only [removeLoop]
  rw [if_neg hc]

/-- An old entry whose id never occurs in the new flat set survives the diff
loop untouched. -/
theorem diffLoop_lookup_keeps {news : List MediaItem} :
    ∀ {M : List (Int × MediaItem)} {g : GaugeState} {a u : Nat} {m : MediaItem},
    mapLookup M m.id = some m → (∀ x ∈ news, x.id ≠ m.id) →
    mapLookup (diffLoop news M g a u).1 m.id = some m := by
  induction news with
  | nil => intro M g a u m h _; exact h
  | cons x rest ih =>
    intro M g a u m h hne
    have hxne : x.id ≠ m.id := hne x (List.mem_cons_self _ _)
    have hrest : ∀ z ∈ rest, z.id ≠ m.id := fun z hz => hne z (List.mem_cons_of_mem _ hz)
    have hdel : mapLookup (mapDelete M x.id) m.id = some m := by
      rw [mapLookup_mapDelete_ne (fun hc => hxne hc.symm)]
      exact h
    cases hl : mapLookup M x.id with
    | none =>
      rw [diffLoop_cons_none x rest M g a u hl]
      exact ih h hrest
    | some y =>
      by_cases hd : x.Diff y = true
      · rw [diffLoop_cons_some_diff x y rest M g a u hl hd]
        exact ih hdel hrest
      · rw [diffLoop_cons_some_nodiff x y rest M g a u hl (Bool.eq_false_iff.mpr hd)]
        exact ih hdel hrest

/-- Whatever the removal loop does, the items already accumulated stay. -/
theorem removeLoop_items_mono {sk : List String} {R : List (Int × MediaItem)} :
    ∀ {items : List MediaItem} {g : GaugeState} {r : Nat} {x : MediaItem},
    x ∈ items → x ∈ (removeLoop sk R items g r).1 := by
  induction R with
  | nil => intro items g r x hx; exact hx
  | cons p rest ih =>
    intro items g r x hx
    by_cases hc : Contains sk p.2.sectionKey = true
    · rw [removeLoop_cons_skip sk p rest items _ _ hc]
      exact ih (List.mem_append_left _ hx)
    · rw [removeLoop_cons_remove sk p rest items _ _ hc]
      exact ih hx

/-- A residual entry of a skipped section is retained into the committed item
list by the removal loop. -/
theorem removeLoop_retains {sk : List String} {R : List (Int × MediaItem)} :
    ∀ {items : List MediaItem} {g : GaugeState} {r : Nat} {p : Int × MediaItem},
    p ∈ R → Contains sk p.2.sectionKey = true →
    p.2 ∈ (removeLoop sk R items g r).1 := by
  induction R with
  | nil => intro items g r p hp _; cases hp
  | cons q rest ih =>
    intro items g r p hp hc
    rcases List.mem_cons.mp hp with rfl | hp2
    · rw [removeLoop_cons_skip sk p rest items _ _ hc]
      exact removeLoop_items_mono (List.mem_append_right _ (List.mem_singleton.mpr rfl))
    · by_cases hq : Contains sk q.2.sectionKey = true
      · rw [removeLoop_cons_skip sk q rest items _ _ hq]
        exact ih hp2 hc
      · rw [removeLoop_cons_remove sk q rest items _ _ hq]
        exact ih hp2 hc

/-! ### The library loop, library by library -/

/-- Fetch-and-flatten of one library: the loop body of main.go lines 98-110. -/
def libItems (fuel : Nat) (client : PlexClient) (lib : Library) :
    Except String (List MediaItem) :=
  match client.getLibraryContent lib.key with
  | Except.error e => Except.error e
  | Except.ok content => analyzeItems client fuel content

/-- The items of one library when its fetch-and-flatten succeeds. -/
def libItemsOk (fuel : Nat) (client : PlexClient) (lib : Library) : List MediaItem :=
  match libItems fuel client lib with
  | Except.error _ => []
  | Except.ok items => items

/-- A successful run of the library loop skips exactly the stale libraries (in
order) and concatenates the flattened items of the fresh ones (in order), each
of whose fetch-and-flatten must have succeeded. -/
theorem collectLoop_extract (fuel : Nat) (client : PlexClient) (t : Int) :
    ∀ (libs : List Library) (sk0 : List String) (acc : List MediaItem)
      (sk : List String) (news : List MediaItem),
    collectLoop fuel client t libs sk0 acc = (sk, Except.ok news) →
    sk = sk0 ++ (libs.filter (fun x => decide (x.updatedAt < t))).map (fun x => x.key) ∧
    news = acc ++
      (libs.filter (fun x => !decide (x.updatedAt < t))).flatMap (libItemsOk fuel client) ∧
    ∀ x ∈ libs, ¬(x.updatedAt < t) → ∃ items, libItems fuel client x = Except.ok items := by
  intro libs
  induction libs with
  | nil =>
    intro sk0 acc sk news h
    simp only [collectLoop, Prod.mk.injEq, Except.ok.injEq] at h
    refine ⟨by simp [h.1.symm], by simp [h.2.symm], by simp⟩
  | cons lib rest ih =>
    intro sk0 acc sk news h
    by_cases hskip : lib.updatedAt < t
    · simp only [collectLoop, if_pos hskip] at h
      obtain ⟨h1, h2, h3⟩ := ih (sk0 ++ [lib.key]) acc sk news h
      refine ⟨?_, ?_, ?_⟩
      · rw [h1]
        simp [List.filter_cons, hskip]
      · rw [h2]
        simp [List.filter_cons, hskip]
      · intro x hx hxs
        rcases List.mem_cons.mp hx with rfl | hx2
        · exact absurd hskip hxs
        · exact h3 x hx2 hxs
    · cases hgc : client.getLibraryContent lib.key with
      | error e =>
        simp only [collectLoop, if_neg hskip, hgc, Prod.mk.injEq] at h
        exact Except.noConfusion h.2
      | ok content =>
        cases han : analyzeItems client fuel content with
        | error e =>
          simp only [collectLoop, if_neg hskip, hgc, han, Prod.mk.injEq] at h
          exact Except.noConfusion h.2
        | ok items =>
          simp only [collectLoop, if_neg hskip, hgc, han] at h
          obtain ⟨h1, h2, h3⟩ := ih sk0 (acc ++ items) sk news h
          have hlib : libItemsOk fuel client lib = items := by
            simp [libItemsOk, libItems, hgc, han]
          refine ⟨?_, ?_, ?_⟩
          · rw [h1]
            simp [List.filter_cons, hskip]
          · rw [h2]
            simp [List.filter_cons, hskip, hlib]
          · intro x hx hxs
            rcases List.mem_cons.mp hx with rfl | hx2
            · exact ⟨items, by simp [libItems, hgc, han]⟩
            · exact h3 x hx2 hxs

/-- Conversely: when every fresh library flattens successfully, the library
loop succeeds with exactly that decomposition. -/
theorem collectLoop_char (fuel : Nat) (client : PlexClient) (t : Int) :
    ∀ (libs : List Library) (sk0 : List String) (acc : List MediaItem),
    (∀ x ∈ libs, ¬(x.updatedAt < t) → ∃ items, libItems fuel client x = Except.ok items) →
    collectLoop fuel client t libs sk0 acc =
      (sk0 ++ (libs.filter (fun x => decide (x.updatedAt < t))).map (fun x => x.key),
        Except.ok (acc ++
          (libs.filter (fun x => !decide (x.updatedAt < t))).flatMap (libItemsOk fuel client))) := by
  intro libs
  induction libs with
  | nil => intro sk0 acc _; simp [collectLoop]
  | cons lib rest ih =>
    intro sk0 acc hok
    have htail : ∀ x ∈ rest, ¬(x.updatedAt < t) →
        ∃ items, libItems fuel client x = Except.ok items :=
      fun x hx => hok x (List.mem_cons_of_mem _ hx)
    by_cases hskip : lib.updatedAt < t
    · simp only [collectLoop, if_pos hskip]
      rw [ih (sk0 ++ [lib.key]) acc htail]
      simp [List.filter_cons, hskip]
    · obtain ⟨items, hitems⟩ := hok lib (List.mem_cons_self _ _) hskip
      cases hgc : client.getLibraryContent lib.key with
      | error e => simp [libItems, hgc] at hitems
      | ok content =>
        have han : analyzeItems client fuel content = Except.ok items := by
          simpa [libItems, hgc] using hitems
        have hlib : libItemsOk fuel client lib = items := by
          simp [libItemsOk, hitems]
        simp only [collectLoop, if_neg hskip, hgc, han]
        rw [ih sk0 (acc ++ items) htail]
        simp [List.filter_cons, hskip, hlib]

/-! ### The flatten and the cycle depend only on the fetches they perform -/

theorem analyzeItemsLoop_client_ext (client client2 : PlexClient)
    (hmc : client2.getMetadataChildren = client.getMetadataChildren)
    (child : Option (MediaContainer → Except String (List MediaItem))) :
    ∀ (container : MediaContainer) (l : List Metadata),
    analyzeItemsLoop client2 child container l =
      analyzeItemsLoop client child container l := by
  intro container l
  induction l with
  | nil => rfl
  | cons hd tl ih =>
    by_cases c1 : hd.type = "artist" ∨ hd.type = "album"
    · simp only [analyzeItemsLoop, if_pos c1]
      exact ih
    · by_cases c2 : hd.type = "show" ∨ hd.type = "season"
      · simp only [analyzeItemsLoop, if_neg c1, if_pos c2, hmc, ih]
      · by_cases c3 : hd.type = "movie" ∨ hd.type = "episode"
        · simp only [analyzeItemsLoop, if_neg c1, if_neg c2, if_pos c3, ih]
        · simp only [analyzeItemsLoop, if_neg c1, if_neg c2, if_neg c3]

theorem analyzeItemsGo_client_ext (client client2 : PlexClient)
    (hmc : client2.getMetadataChildren = client.getMetadataChildren) :
    ∀ (fuel : Nat) (container : MediaContainer) (l : List Metadata),
    analyzeItemsGo client2 fuel container l = analyzeItemsGo client fuel container l := by
  intro fuel
  induction fuel with
  | zero =>
    intro container l
    exact analyzeItemsLoop_client_ext client client2 hmc none container l
  | succ fuel2 ih =>
    intro container l
    have hchild : (fun content => analyzeItemsGo client2 fuel2 content content.metadata) =
        (fun content => analyzeItemsGo client fuel2 content content.metadata) :=
      funext fun content => ih content content.metadata
    simp only [analyzeItemsGo]
    rw [hchild]
    exact analyzeItemsLoop_client_ext client client2 hmc _ container l

/-- The library loop never reads the content of a section key all of whose
libraries are skipped: a client differing only there yields the same run. -/
theorem collectLoop_client_ext (fuel : Nat) (t : Int) (key0 : String)
    (client client2 : PlexClient)
    (hmc : client2.getMetadataChildren = client.getMetadataChildren)
    (hgc : ∀ k, k ≠ key0 → client2.getLibraryContent k = client.getLibraryContent k) :
    ∀ (libs : List Library) (sk0 : List String) (acc : List MediaItem),
    (∀ x ∈ libs, x.key = key0 → x.updatedAt < t) →
    collectLoop fuel client2 t libs sk0 acc = collectLoop fuel client t libs sk0 acc := by
  intro libs
  induction libs with
  | nil => intro sk0 acc _; rfl
  | cons lib rest ih =>
    intro sk0 acc hkey
    have htail : ∀ x ∈ rest, x.key = key0 → x.updatedAt < t :=
      fun x hx => hkey x (List.mem_cons_of_mem _ hx)
    have hih : ∀ (s : List String) (a : List MediaItem),
        collectLoop fuel client2 t rest s a = collectLoop fuel client t rest s a :=
      fun s a => ih s a htail
    by_cases hskip : lib.updatedAt < t
    · simp only [collectLoop, if_pos hskip, hih]
    · have hne : lib.key ≠ key0 :=
        fun hc => hskip (hkey lib (List.mem_cons_self _ _) hc)
      have hana : ∀ content, analyzeItems client2 fuel content =
          analyzeItems client fuel content :=
        fun content => analyzeItemsGo_client_ext client client2 hmc fuel content content.metadata
      simp only [collectLoop, if_neg hskip, hgc lib.key hne, hana, hih]

/-- The canonical shape of a Collect call whose library loop succeeds. -/
theorem Collect_unfold_ok (fuel : Nat) (client : PlexClient) (now : Int)
    (c : Collector) (g : GaugeState) (libs : List Library) (sk : List String)
    (news : List MediaItem)
    (hlibs : client.getLibraries = Except.ok libs)
    (hcl : collectLoop fuel client c.lastRun libs [] [] = (sk, Except.ok news)) :
    Collect fuel client now c g =
      { collector :=
          { lastRun := now
            mediaItems := (removeLoop sk (diffLoop news (buildOldMap c.mediaItems) g 0 0).1
              news (diffLoop news (buildOldMap c.mediaItems) g 0 0).2.1 0).1
            skippedSectionKeys := sk }
        gauges := (removeLoop sk (diffLoop news (buildOldMap c.mediaItems) g 0 0).1
          news (diffLoop news (buildOldMap c.mediaItems) g 0 0).2.1 0).2.1
        result := Except.ok
          ((diffLoop news (buildOldMap c.mediaItems) g 0 0).2.2.1,
            (diffLoop news (buildOldMap c.mediaItems) g 0 0).2.2.2,
            (removeLoop sk (diffLoop news (buildOldMap c.mediaItems) g 0 0).1
              news (diffLoop news (buildOldMap c.mediaItems) g 0 0).2.1 0).2.2) } := by
  unfold Collect
  rw [hlibs]
  simp only [hcl]

/-! ### C3: the incremental-skip optimization is sound -/

/-- Claim C3: for a library whose last-modified time is strictly before the
previous cycle start, (i) its section key lands in the committed skip list of
a successful cycle, (ii) the whole cycle outcome is independent of that
library's content fetch, (iii) every previous-snapshot item of that section
(whose id the freshly flattened set does not reuse) is retained into the new
snapshot, and (iv) the removal loop passes a skipped-section entry through
without touching a gauge or the removed count. -/
theorem claim_C3 (fuel : Nat) (client : PlexClient) (now : Int) (c : Collector)
    (g : GaugeState) (lib : Library) (libs : List Library) (sk : List String)
    (news : List MediaItem)
    (hlibs : client.getLibraries = Except.ok libs)
    (hmem : lib ∈ libs)
    (hlt : lib.updatedAt < c.lastRun)
    (hcl : collectLoop fuel client c.lastRun libs [] [] = (sk, Except.ok news)) :
    lib.key ∈ (Collect fuel client now c g).collector.skippedSectionKeys ∧
    (∀ client2 : PlexClient,
      client2.getLibraries = client.getLibraries →
      client2.getMetadataChildren = client.getMetadataChildren →
      (∀ k, k ≠ lib.key → client2.getLibraryContent k = client.getLibraryContent k) →
      (∀ lib2 ∈ libs, lib2.key = lib.key → lib2.updatedAt < c.lastRun) →
      Collect fuel client2 now c g = Collect fuel client now c g) ∧
    (∀ m ∈ c.mediaItems, m.sectionKey = lib.key →
      (c.mediaItems.map (fun x => x.id)).Nodup →
      (∀ x ∈ news, x.id ≠ m.id) →
      m ∈ (Collect fuel client now c g).collector.mediaItems) ∧
    (∀ (sk2 : List String) (k : Int) (m : MediaItem) (R : List (Int × MediaItem))
      (items : List MediaItem) (g2 : GaugeState) (r : Nat),
      Contains sk2 m.sectionKey = true →
      removeLoop sk2 ((k, m) :: R) items g2 r = removeLoop sk2 R (items ++ [m]) g2 r) := by
  have hkey : lib.key ∈ sk := by
    obtain ⟨h1, _, _⟩ := collectLoop_extract fuel client c.lastRun libs [] [] sk news hcl
    rw [h1]
    simp only [List.nil_append]
    exact List.mem_map.mpr ⟨lib, List.mem_filter.mpr ⟨hmem, by simpa using hlt⟩, rfl⟩
  have hshape := Collect_unfold_ok fuel client now c g libs sk news hlibs hcl
  refine ⟨?_, ?_, ?_, ?_⟩
  · rw [hshape]
    exact hkey
  · intro client2 hgl hmc hgc hall
    have hloop := collectLoop_client_ext fuel c.lastRun lib.key client client2 hmc hgc
      libs [] [] hall
    unfold Collect
    rw [hgl, hlibs]
    simp only [hloop]
  · intro m hm hsec hnd hid
    rw [hshape]
    have hmap : buildOldMap c.mediaItems = c.mediaItems.map (fun x => (x.id, x)) :=
      buildOldMap_eq hnd
    have hlook : mapLookup (buildOldMap c.mediaItems) m.id = some m := by
      rw [hmap]
      exact mapLookup_map_pair_self hnd hm
    have hres : mapLookup (diffLoop news (buildOldMap c.mediaItems) g 0 0).1 m.id = some m :=
      diffLoop_lookup_keeps hlook hid
    have hpair : (m.id, m) ∈ (diffLoop news (buildOldMap c.mediaItems) g 0 0).1 :=
      mapLookup_mem hres
    have hcon : Contains sk m.sectionKey = true := by
      rw [Contains_eq_mem, hsec]
      exact hkey
    exact removeLoop_retains hpair hcon
  · intro sk2 k m R items g2 r hc
    exact removeLoop_cons_skip sk2 (k, m) R items g2 r hc

/-- The stale library of the C3 witness. -/
def lib1 : Library := { key := "1", updatedAt := 100 }

/-- The fresh library of the C3 witness. -/
def lib2 : Library := { key := "2", updatedAt := 300 }

/-- A media variant of the fresh library. -/
def media9 : Media :=
  { id := 9, deletedAt := 0, audioChannels := 6, audioCodec := "dts"
    videoCodec := "h265", videoResolution := "2160", part := [{ size := 4000 }] }

/-- The movie node of the fresh library. -/
def movieMeta9 : Metadata :=
  { type := "movie", ratingKey := "m9", parentRatingKey := ""
    grandparentRatingKey := "", media := [media9] }

/-- The content container of the fresh library (section id 2). -/
def container2 : MediaContainer := { librarySectionID := 2, metadata := [movieMeta9] }

/-- The flattened item of the fresh library. -/
def item9 : MediaItem := buildMediaItem movieMeta9 container2 media9

/-- A client with one stale and one fresh library. -/
def client3 : PlexClient :=
  { getLibraries := Except.ok [lib1, lib2]
    getLibraryContent := fun k =>
      if k = "2" then Except.ok container2 else Except.error "unexpected"
    getMetadataChildren := fun _ => Except.error "unexpected" }

/-- An item of the stale library, tracked since an earlier cycle. -/
def oldItem1 : MediaItem :=
  { id := 5, audioChannels := 2, audioCodec := "aac", grandParentRatingKey := ""
    mediaType := "movie", parentRatingKey := "", sectionKey := "1", size := 1000
    videoCodec := "h264", videoResolution := "1080" }

/-- The collector state of the C3 witness. -/
def collector3 : Collector :=
  { lastRun := 200, mediaItems := [oldItem1], skippedSectionKeys := [] }

theorem claim_C3_witness :
    lib1.key ∈ (Collect 1 client3 400 collector3 zeroGauges).collector.skippedSectionKeys ∧
    oldItem1 ∈ (Collect 1 client3 400 collector3 zeroGauges).collector.mediaItems := by
  have h := claim_C3 1 client3 400 collector3 zeroGauges lib1 [lib1, lib2] ["1"] [item9]
    rfl (by decide) (by decide) rfl
  exact ⟨h.1, h.2.2.1 oldItem1 (by decide) (by decide) (by decide) (by decide)⟩

/-! ### Lemmas for the idempotence argument -/

theorem diffLoop_nil_residual : ∀ (news : List MediaItem) (g : GaugeState) (a u : Nat),
    (diffLoop news ([] : List (Int × MediaItem)) g a u).1 = [] := by
  intro news
  induction news with
  | nil => intro g a u; rfl
  | cons x rest ih =>
    intro g a u
    rw [diffLoop_cons_none x rest [] g a u rfl]
    exact ih _ _ _

/-- When every new item finds an identical old record under its id, the diff
loop only consumes map entries: gauges, added and updated are untouched. -/
theorem diffLoop_identical : ∀ (news2 : List MediaItem) (M : List (Int × MediaItem))
    (g : GaugeState) (a u : Nat),
    (∀ x ∈ news2, mapLookup M x.id = some x) →
    ((news2.map (fun m => m.id)).Nodup) →
    diffLoop news2 M g a u = ((news2.map (fun m => m.id)).foldl mapDelete M, g, a, u) := by
  intro news2
  induction news2 with
  | nil => intro M g a u _ _; rfl
  | cons x rest ih =>
    intro M g a u hall hnd
    simp only [List.map_cons, List.nodup_cons] at hnd
    have hx : mapLookup M x.id = some x := hall x (List.mem_cons_self _ _)
    rw [diffLoop_cons_some_nodiff x x rest M g a u hx (MediaItem.Diff_self x)]
    have hrest : ∀ z ∈ rest, mapLookup (mapDelete M x.id) z.id = some z := by
      intro z hz
      have hne : z.id ≠ x.id := by
        intro hc
        exact hnd.1 (hc ▸ List.mem_map.mpr ⟨z, hz, rfl⟩)
      rw [mapLookup_mapDelete_ne hne]
      exact hall z (List.mem_cons_of_mem _ hz)
    rw [ih (mapDelete M x.id) g a u hrest hnd.2]
    rfl

theorem mapDeleteAll_eq_filter : ∀ (ks : List Int) (M : List (Int × MediaItem)),
    ks.foldl mapDelete M = M.filter (fun p => decide (p.1 ∉ ks)) := by
  intro ks
  induction ks with
  | nil =>
    intro M
    exact (List.filter_eq_self.mpr (fun p _ => by simp)).symm
  | cons k rest ih =>
    intro M
    show rest.foldl mapDelete (mapDelete M k) = _
    rw [ih (mapDelete M k)]
    rw [mapDelete, List.filter_filter]
    apply List.filter_congr
    intro p _
    by_cases h1 : p.1 = k <;> by_cases h2 : p.1 ∈ rest <;> simp [h1, h2]

theorem filter_map_pair : ∀ (l : List MediaItem) (p : Int → Bool),
    (l.map (fun m => (m.id, m))).filter (fun q => p q.1) =
      (l.filter (fun m => p m.id)).map (fun m => (m.id, m)) := by
  intro l p
  induction l with
  | nil => rfl
  | cons x rest ih =>
    by_cases hx : p x.id
    · simp [List.map_cons, List.filter_cons, hx, ih]
    · simp [List.map_cons, List.filter_cons, hx, ih]

/-- When every residual entry belongs to a skipped section, the removal loop
retains everything: items are appended in order, gauges and the removed count
are untouched. -/
theorem removeLoop_all_skipped {sk : List String} :
    ∀ (R : List (Int × MediaItem)) (items : List MediaItem) (g : GaugeState) (r : Nat),
    (∀ p ∈ R, Contains sk p.2.sectionKey = true) →
    removeLoop sk R items g r = (items ++ R.map Prod.snd, g, r) := by
  intro R
  induction R with
  | nil => intro items g r _; simp [removeLoop]
  | cons p rest ih =>
    intro items g r hall
    rw [removeLoop_cons_skip sk p rest items g r (hall p (List.mem_cons_self _ _))]
    rw [ih (items ++ [p.2]) g r (fun q hq => hall q (List.mem_cons_of_mem _ hq))]
    simp

theorem flatMap_filter_sublist (libs : List Library) (p : Library → Bool)
    (f : Library → List MediaItem) :
    ((libs.filter p).flatMap f).Sublist (libs.flatMap f) := by
  induction libs with
  | nil => simp
  | cons lib rest ih =>
    by_cases hp : p lib
    · simp only [List.filter_cons, hp, if_true, List.flatMap_cons]
      exact ih.append_left (f lib)
    · simp only [List.filter_cons, hp, List.flatMap_cons]
      exact ih.trans (List.sublist_append_right (f lib) (rest.flatMap f))

/-- Claim C7: running Collect twice against a client that returns identical
catalog data both times — starting from the empty snapshot, with duplicate-free
item ids and each library's items carrying its own section key — classifies
nothing as added, updated or removed on the second run and leaves both gauges
exactly where the first run put them. -/
theorem claim_C7 (fuel : Nat) (client : PlexClient) (now1 now2 : Int)
    (g0 : GaugeState) (libs : List Library) (news : List MediaItem)
    (hlibs : client.getLibraries = Except.ok libs)
    (hcl : collectLoop fuel client emptyCollector.lastRun libs [] [] =
      ([], Except.ok news))
    (hnd : (news.map (fun m => m.id)).Nodup)
    (hsec : ∀ lib ∈ libs, ∀ m ∈ libItemsOk fuel client lib, m.sectionKey = lib.key) :
    (Collect fuel client now2 (Collect fuel client now1 emptyCollector g0).collector
        (Collect fuel client now1 emptyCollector g0).gauges).result =
      Except.ok (0, 0, 0) ∧
    (Collect fuel client now2 (Collect fuel client now1 emptyCollector g0).collector
        (Collect fuel client now1 emptyCollector g0).gauges).gauges =
      (Collect fuel client now1 emptyCollector g0).gauges := by
  obtain ⟨hsk1, hnews1, hok1⟩ :=
    collectLoop_extract fuel client emptyCollector.lastRun libs [] [] [] news hcl
  simp only [List.nil_append] at hsk1 hnews1
  have hfilter : libs.filter (fun x => decide (x.updatedAt < emptyCollector.lastRun)) = [] :=
    List.map_eq_nil_iff.mp hsk1.symm
  have hfresh : ∀ x ∈ libs, ¬(x.updatedAt < emptyCollector.lastRun) := by
    intro x hx
    have := List.filter_eq_nil_iff.mp hfilter x hx
    simpa using this
  have hok : ∀ x ∈ libs, ∃ items, libItems fuel client x = Except.ok items :=
    fun x hx => hok1 x hx (hfresh x hx)
  have hnews : news = libs.flatMap (libItemsOk fuel client) := by
    rw [hnews1]
    congr 1
    apply List.filter_eq_self.mpr
    intro x hx
    simpa using hfresh x hx
  have hshape1 := Collect_unfold_ok fuel client now1 emptyCollector g0 libs [] news hlibs hcl
  have hres1 : (diffLoop news (buildOldMap emptyCollector.mediaItems) g0 0 0).1 = [] :=
    diffLoop_nil_residual news g0 0 0
  have hcoll1 : (Collect fuel client now1 emptyCollector g0).collector =
      { lastRun := now1, mediaItems := news, skippedSectionKeys := [] } := by
    rw [hshape1]
    simp only [hres1]
    rfl
  have hok2 : ∀ x ∈ libs, ¬(x.updatedAt < now1) →
      ∃ items, libItems fuel client x = Except.ok items :=
    fun x hx _ => hok x hx
  have hcl2 := collectLoop_char fuel client now1 libs [] [] hok2
  simp only [List.nil_append] at hcl2
  have hsub : ∀ x ∈ (libs.filter (fun x => !decide (x.updatedAt < now1))).flatMap
      (libItemsOk fuel client), x ∈ news := by
    intro x hx
    obtain ⟨lib, hlib, hxl⟩ := List.mem_flatMap.mp hx
    rw [hnews]
    exact List.mem_flatMap.mpr ⟨lib, List.mem_of_mem_filter hlib, hxl⟩
  have hnd2 : (((libs.filter (fun x => !decide (x.updatedAt < now1))).flatMap
      (libItemsOk fuel client)).map (fun m => m.id)).Nodup := by
    refine List.Nodup.sublist ?_ (hnews ▸ hnd)
    exact (flatMap_filter_sublist libs _ _).map _
  have hmapnews : buildOldMap news = news.map (fun m => (m.id, m)) := buildOldMap_eq hnd
  have hallsome : ∀ x ∈ (libs.filter (fun x => !decide (x.updatedAt < now1))).flatMap
      (libItemsOk fuel client), mapLookup (buildOldMap news) x.id = some x := by
    intro x hx
    rw [hmapnews]
    exact mapLookup_map_pair_self hnd (hsub x hx)
  have hdiff2 := diffLoop_identical
    ((libs.filter (fun x => !decide (x.updatedAt < now1))).flatMap (libItemsOk fuel client))
    (buildOldMap news) (Collect fuel client now1 emptyCollector g0).gauges 0 0
    hallsome hnd2
  have hresidual : ((((libs.filter (fun x => !decide (x.updatedAt < now1))).flatMap
        (libItemsOk fuel client)).map (fun m => m.id)).foldl mapDelete (buildOldMap news)) =
      (news.filter (fun m => decide (m.id ∉
        (((libs.filter (fun x => !decide (x.updatedAt < now1))).flatMap
          (libItemsOk fuel client)).map (fun m => m.id))))).map (fun m => (m.id, m)) := by
    rw [mapDeleteAll_eq_filter, hmapnews]
    exact filter_map_pair news (fun i => decide (i ∉
      (((libs.filter (fun x => !decide (x.updatedAt < now1))).flatMap
        (libItemsOk fuel client)).map (fun m => m.id))))
  have hallskip : ∀ q ∈ (news.filter (fun m => decide (m.id ∉
        (((libs.filter (fun x => !decide (x.updatedAt < now1))).flatMap
          (libItemsOk fuel client)).map (fun m => m.id))))).map (fun m => (m.id, m)),
      Contains ((libs.filter (fun x => decide (x.updatedAt < now1))).map (fun x => x.key))
        q.2.sectionKey = true := by
    intro q hq
    obtain ⟨m, hmf, rfl⟩ := List.mem_map.mp hq
    obtain ⟨hmn, hmid⟩ := List.mem_filter.mp hmf
    have hmid2 : m.id ∉ (((libs.filter (fun x => !decide (x.updatedAt < now1))).flatMap
        (libItemsOk fuel client)).map (fun m => m.id)) := by simpa using hmid
    obtain ⟨lib, hlibm, hml⟩ := List.mem_flatMap.mp (hnews ▸ hmn)
    by_cases hstale : lib.updatedAt < now1
    · have hkeyeq : m.sectionKey = lib.key := hsec lib hlibm m hml
      rw [Contains_eq_mem, hkeyeq]
      exact List.mem_map.mpr ⟨lib, List.mem_filter.mpr ⟨hlibm, by simpa using hstale⟩, rfl⟩
    · exfalso
      apply hmid2
      apply List.mem_map.mpr
      refine ⟨m, ?_, rfl⟩
      exact List.mem_flatMap.mpr
        ⟨lib, List.mem_filter.mpr ⟨hlibm, by simpa using hstale⟩, hml⟩
  have hrem := removeLoop_all_skipped
    ((news.filter (fun m => decide (m.id ∉
        (((libs.filter (fun x => !decide (x.updatedAt < now1))).flatMap
          (libItemsOk fuel client)).map (fun m => m.id))))).map (fun m => (m.id, m)))
    ((libs.filter (fun x => !decide (x.updatedAt < now1))).flatMap (libItemsOk fuel client))
    (Collect fuel client now1 emptyCollector g0).gauges 0 hallskip
  have hshape2 := Collect_unfold_ok fuel client now2
    { lastRun := now1, mediaItems := news, skippedSectionKeys := [] }
    (Collect fuel client now1 emptyCollector g0).gauges libs
    ((libs.filter (fun x => decide (x.updatedAt < now1))).map (fun x => x.key))
    ((libs.filter (fun x => !decide (x.updatedAt < now1))).flatMap (libItemsOk fuel client))
    hlibs hcl2
  rw [hcoll1, hshape2]
  simp only [hdiff2, hresidual, hrem]
  exact ⟨trivial, trivial⟩

/-- A media variant of the stale library of the C7 witness. -/
def media5 : Media :=
  { id := 5, deletedAt := 0, audioChannels := 2, audioCodec := "aac"
    videoCodec := "h264", videoResolution := "1080", part := [{ size := 1000 }] }

/-- The movie node of the stale library of the C7 witness. -/
def movieMeta5 : Metadata :=
  { type := "movie", ratingKey := "m5", parentRatingKey := ""
    grandparentRatingKey := "", media := [media5] }

/-- The content container of the stale library (section id 1). -/
def container1 : MediaContainer := { librarySectionID := 1, metadata := [movieMeta5] }

/-- A consistent two-library client: section keys match the content section
ids, so the retained-on-skip path and the refetch path are both exercised. -/
def client7 : PlexClient :=
  { getLibraries := Except.ok [lib1, lib2]
    getLibraryContent := fun k =>
      if k = "1" then Except.ok container1
      else if k = "2" then Except.ok container2
      else Except.error "unexpected"
    getMetadataChildren := fun _ => Except.error "unexpected" }

theorem claim_C7_witness :
    (Collect 1 client7 400 (Collect 1 client7 200 emptyCollector zeroGauges).collector
        (Collect 1 client7 200 emptyCollector zeroGauges).gauges).result =
      Except.ok (0, 0, 0) :=
  (claim_C7 1 client7 200 400 zeroGauges [lib1, lib2]
    [buildMediaItem movieMeta5 container1 media5, item9] rfl rfl
    (by decide) (by decide)).1

/-! ### C1: the additivity invariant of the two gauges -/

/-- Number of tracked items mapping to a given label 5-tuple. -/
def countItems (items : List MediaItem) (L : Labels) : Int :=
  ((items.filter (fun m => decide (m.Gauge = L))).length : Int)

/-- Total byte size of the tracked items mapping to a given label 5-tuple. -/
def sumSize (items : List MediaItem) (L : Labels) : Int :=
  ((items.filter (fun m => decide (m.Gauge = L))).map (fun m => m.size)).sum

/-- The additivity invariant: at every label combination the count gauge holds
the number of tracked items there and the bytes gauge their summed size. -/
def gaugesMatch (items : List MediaItem) (g : GaugeState) : Prop :=
  ∀ L, g.count L = countItems items L ∧ g.bytes L = sumSize items L

/-- The old records consumed by the diff loop, in consumption order: the value
looked up for each new item whose id is (still) in the residual map. -/
def diffConsumed : List MediaItem → List (Int × MediaItem) → List MediaItem
  | [], _ => []
  | x :: rest, M =>
    match mapLookup M x.id with
    | none => diffConsumed rest M
    | some y => y :: diffConsumed rest (mapDelete M x.id)

theorem countItems_nil (L : Labels) : countItems [] L = 0 := rfl

theorem sumSize_nil (L : Labels) : sumSize [] L = 0 := rfl

theorem countItems_cons (x : MediaItem) (l : List MediaItem) (L : Labels) :
    countItems (x :: l) L = (if x.Gauge = L then 1 else 0) + countItems l L := by
  by_cases h : x.Gauge = L <;> simp [countItems, List.filter_cons, h] <;> omega

theorem sumSize_cons (x : MediaItem) (l : List MediaItem) (L : Labels) :
    sumSize (x :: l) L = (if x.Gauge = L then x.size else 0) + sumSize l L := by
  by_cases h : x.Gauge = L
  · simp [sumSize, List.filter_cons, h]
  · simp [sumSize, List.filter_cons, h]

theorem countItems_append (l1 l2 : List MediaItem) (L : Labels) :
    countItems (l1 ++ l2) L = countItems l1 L + countItems l2 L := by
  simp [countItems, List.filter_append] <;> omega

theorem sumSize_append (l1 l2 : List MediaItem) (L : Labels) :
    sumSize (l1 ++ l2) L = sumSize l1 L + sumSize l2 L := by
  simp [sumSize, List.filter_append]

theorem adjust_apply (g : GaugeVec) (l0 : Labels) (d : Int) (L : Labels) :
    (g.adjust l0 d) L = if L = l0 then g L + d else g L := rfl

/-- A list splits, measure-wise, into a filter and its complement. -/
theorem countItems_filter_split (l : List MediaItem) (q : MediaItem → Bool) (L : Labels) :
    countItems l L = countItems (l.filter q) L + countItems (l.filter (fun m => !q m)) L := by
  induction l with
  | nil => rfl
  | cons x rest ih =>
    by_cases hq : q x <;> by_cases hL : x.Gauge = L <;>
      simp [List.filter_cons, hq, hL, countItems_cons, ih] <;> omega

theorem sumSize_filter_split (l : List MediaItem) (q : MediaItem → Bool) (L : Labels) :
    sumSize l L = sumSize (l.filter q) L + sumSize (l.filter (fun m => !q m)) L := by
  induction l with
  | nil => rfl
  | cons x rest ih =>
    by_cases hq : q x <;> by_cases hL : x.Gauge = L <;>
      simp [List.filter_cons, hq, hL, sumSize_cons, ih] <;> omega

theorem filter_snd_map_pair (l : List MediaItem) (q : MediaItem → Bool) :
    ((l.map (fun m => (m.id, m))).filter (fun p => q p.2)).map Prod.snd = l.filter q := by
  induction l with
  | nil => rfl
  | cons x rest ih =>
    by_cases hq : q x
    · simp [List.map_cons, List.filter_cons, hq, ih]
    · simp [List.map_cons, List.filter_cons, hq, ih]

theorem mapLookup_none_iff {M : List (Int × MediaItem)} {k : Int} :
    mapLookup M k = none ↔ k ∉ M.map Prod.fst := by
  induction M with
  | nil => simp [mapLookup]
  | cons p rest ih =>
    by_cases hp : p.1 = k
    · simp [mapLookup, hp]
    · simp only [mapLookup, if_neg hp, List.map_cons, List.mem_cons, ih]
      constructor
      · intro h hc
        rcases hc with hc | hc
        · exact hp hc.symm
        · exact h hc
      · intro h hc
        exact h (Or.inr hc)

theorem mapDelete_not_mem {M : List (Int × MediaItem)} {k : Int}
    (h : k ∉ M.map Prod.fst) : mapDelete M k = M := by
  apply List.filter_eq_self.mpr
  intro p hp
  simp only [ne_eq, decide_eq_true_eq]
  intro hc
  exact h (List.mem_map.mpr ⟨p, hp, hc⟩)

theorem mapLookup_mapDelete_self {M : List (Int × MediaItem)} {k : Int} :
    mapLookup (mapDelete M k) k = none := by
  rw [mapLookup_none_iff]
  intro hc
  obtain ⟨p, hp, hpk⟩ := List.mem_map.mp hc
  have := List.of_mem_filter hp
  simp [hpk] at this

theorem mapLookup_mapDelete_some {M : List (Int × MediaItem)} {k k2 : Int}
    {y : MediaItem} (h : mapLookup (mapDelete M k) k2 = some y) :
    mapLookup M k2 = some y := by
  by_cases hk : k2 = k
  · rw [hk, mapLookup_mapDelete_self] at h
    cases h
  · rw [mapLookup_mapDelete_ne hk] at h
    exact h

/-- Deleting a looked-up entry of a duplicate-free map takes exactly its
measure away. -/
theorem measure_delete {M : List (Int × MediaItem)} {k : Int} {y : MediaItem}
    (hnd : (M.map Prod.fst).Nodup) (h : mapLookup M k = some y) (L : Labels) :
    countItems (M.map Prod.snd) L =
      countItems ((mapDelete M k).map Prod.snd) L + (if y.Gauge = L then 1 else 0) ∧
    sumSize (M.map Prod.snd) L =
      sumSize ((mapDelete M k).map Prod.snd) L + (if y.Gauge = L then y.size else 0) := by
  induction M with
  | nil => cases h
  | cons p rest ih =>
    simp only [List.map_cons, List.nodup_cons] at hnd
    by_cases hp : p.1 = k
    · simp only [mapLookup, if_pos hp] at h
      cases h
      have hrest : mapDelete rest k = rest := by
        apply mapDelete_not_mem
        intro hc
        exact hnd.1 (hp ▸ hc)
      have hdel : mapDelete (p :: rest) k = rest := by
        have hstep : mapDelete (p :: rest) k = mapDelete rest k := by
          simp [mapDelete, List.filter_cons, hp]
        rw [hstep, hrest]
      rw [hdel]
      constructor
      · rw [List.map_cons, countItems_cons]
        omega
      · rw [List.map_cons, sumSize_cons]
        omega
    · simp only [mapLookup, if_neg hp] at h
      have hdel : mapDelete (p :: rest) k = p :: mapDelete rest k := by
        simp [mapDelete, List.filter_cons, hp]
      rw [hdel]
      obtain ⟨ih1, ih2⟩ := ih hnd.2 h
      constructor
      · simp only [List.map_cons, countItems_cons]
        omega
      · simp only [List.map_cons, sumSize_cons]
        omega

/-- The residual map of the diff loop is the old map with every processed new
id deleted (deleting an absent id is a no-op). -/
theorem diffLoop_residual_eq : ∀ (news : List MediaItem) (M : List (Int × MediaItem))
    (g : GaugeState) (a u : Nat),
    (diffLoop news M g a u).1 = (news.map (fun m => m.id)).foldl mapDelete M := by
  intro news
  induction news with
  | nil => intro M g a u; rfl
  | cons x rest ih =>
    intro M g a u
    cases hl : mapLookup M x.id with
    | none =>
      rw [diffLoop_cons_none x rest M g a u hl]
      rw [ih]
      have : mapDelete M x.id = M := mapDelete_not_mem (mapLookup_none_iff.mp hl)
      simp only [List.map_cons, List.foldl_cons, this]
    | some y =>
      by_cases hd : x.Diff y = true
      · rw [diffLoop_cons_some_diff x y rest M g a u hl hd, ih]
        rfl
      · rw [diffLoop_cons_some_nodiff x y rest M g a u hl (Bool.eq_false_iff.mpr hd), ih]
        rfl

/-- Gauge deltas of the diff loop: every new item is added and every consumed
old record subtracted — for unchanged matches the swap is invisible because of
the hypothesis (same label set, same size). -/
theorem diffLoop_gauges : ∀ (news : List MediaItem) (M : List (Int × MediaItem))
    (g : GaugeState) (a u : Nat),
    (∀ x ∈ news, ∀ y, mapLookup M x.id = some y → x.Diff y = false →
      y.Gauge = x.Gauge ∧ y.size = x.size) →
    ∀ L,
    (diffLoop news M g a u).2.1.count L =
      g.count L + countItems news L - countItems (diffConsumed news M) L ∧
    (diffLoop news M g a u).2.1.bytes L =
      g.bytes L + sumSize news L - sumSize (diffConsumed news M) L := by
  intro news
  induction news with
  | nil => intro M g a u _ L; simp [diffLoop, diffConsumed, countItems_nil, sumSize_nil]
  | cons x rest ih =>
    intro M g a u hgood L
    have hgrest : ∀ z ∈ rest, ∀ y, mapLookup M z.id = some y → z.Diff y = false →
        y.Gauge = z.Gauge ∧ y.size = z.size :=
      fun z hz => hgood z (List.mem_cons_of_mem _ hz)
    have hgrestD : ∀ z ∈ rest, ∀ y, mapLookup (mapDelete M x.id) z.id = some y →
        z.Diff y = false → y.Gauge = z.Gauge ∧ y.size = z.size :=
      fun z hz y hl => hgrest z hz y (mapLookup_mapDelete_some hl)
    cases hl : mapLookup M x.id with
    | none =>
      rw [diffLoop_cons_none x rest M g a u hl]
      have hcons : diffConsumed (x :: rest) M = diffConsumed rest M := by
        simp [diffConsumed, hl]
      have H := ih M
        { count := g.count.adjust x.Gauge 1, bytes := g.bytes.adjust x.Gauge x.size }
        (a + 1) u hgrest L
      rw [hcons]
      constructor
      · rw [H.1, countItems_cons]
        simp only [GaugeVec.adjust]
        by_cases hL : L = x.Gauge
        · simp [hL]
          omega
        · have hL2 : ¬(x.Gauge = L) := fun h => hL h.symm
          simp [hL, hL2]
      · rw [H.2, sumSize_cons]
        simp only [GaugeVec.adjust]
        by_cases hL : L = x.Gauge
        · simp [hL]
          omega
        · have hL2 : ¬(x.Gauge = L) := fun h => hL h.symm
          simp [hL, hL2]
    | some y =>
      have hcons : diffConsumed (x :: rest) M = y :: diffConsumed rest (mapDelete M x.id) := by
        simp [diffConsumed, hl]
      by_cases hd : x.Diff y = true
      · rw [diffLoop_cons_some_diff x y rest M g a u hl hd]
        have H := ih (mapDelete M x.id)
          { count := (g.count.adjust y.Gauge (-1)).adjust x.Gauge 1
            bytes := (g.bytes.adjust y.Gauge (-y.size)).adjust x.Gauge x.size }
          a (u + 1) hgrestD L
        rw [hcons]
        constructor
        · rw [H.1, countItems_cons, countItems_cons]
          simp only [GaugeVec.adjust]
          by_cases hx : L = x.Gauge <;> by_cases hy : L = y.Gauge
          · rw [if_pos hx, if_pos hy, if_pos hx.symm, if_pos hy.symm]
            omega
          · rw [if_pos hx, if_neg hy, if_pos hx.symm, if_neg (fun h => hy h.symm)]
            omega
          · rw [if_neg hx, if_pos hy, if_neg (fun h => hx h.symm), if_pos hy.symm]
            omega
          · rw [if_neg hx, if_neg hy, if_neg (fun h => hx h.symm), if_neg (fun h => hy h.symm)]
            omega
        · rw [H.2, sumSize_cons, sumSize_cons]
          simp only [GaugeVec.adjust]
          by_cases hx : L = x.Gauge <;> by_cases hy : L = y.Gauge
          · rw [if_pos hx, if_pos hy, if_pos hx.symm, if_pos hy.symm]
            omega
          · rw [if_pos hx, if_neg hy, if_pos hx.symm, if_neg (fun h => hy h.symm)]
            omega
          · rw [if_neg hx, if_pos hy, if_neg (fun h => hx h.symm), if_pos hy.symm]
            omega
          · rw [if_neg hx, if_neg hy, if_neg (fun h => hx h.symm), if_neg (fun h => hy h.symm)]
            omega
      · have hdf : x.Diff y = false := Bool.eq_false_iff.mpr hd
        obtain ⟨hgy, hsy⟩ := hgood x (List.mem_cons_self _ _) y hl hdf
        rw [diffLoop_cons_some_nodiff x y rest M g a u hl hdf]
        have H := ih (mapDelete M x.id) g a u hgrestD L
        rw [hcons]
        constructor
        · rw [H.1, countItems_cons, countItems_cons, hgy]
          omega
        · rw [H.2, sumSize_cons, sumSize_cons, hgy, hsy]
          omega

/-- Splitting a duplicate-free map, measure-wise, into the residual left by a
diff pass and the records the pass consumed. -/
theorem consumed_measure_split : ∀ (news : List MediaItem) (M : List (Int × MediaItem)),
    (M.map Prod.fst).Nodup → ∀ L,
    countItems (M.map Prod.snd) L =
      countItems (((news.map (fun m => m.id)).foldl mapDelete M).map Prod.snd) L +
      countItems (diffConsumed news M) L ∧
    sumSize (M.map Prod.snd) L =
      sumSize (((news.map (fun m => m.id)).foldl mapDelete M).map Prod.snd) L +
      sumSize (diffConsumed news M) L := by
  intro news
  induction news with
  | nil => intro M _ L; simp [diffConsumed, countItems_nil, sumSize_nil]
  | cons x rest ih =>
    intro M hnd L
    cases hl : mapLookup M x.id with
    | none =>
      have hM : mapDelete M x.id = M := mapDelete_not_mem (mapLookup_none_iff.mp hl)
      have hcons : diffConsumed (x :: rest) M = diffConsumed rest M := by
        simp [diffConsumed, hl]
      simp only [List.map_cons, List.foldl_cons, hM, hcons]
      exact ih M hnd L
    | some y =>
      have hndD : ((mapDelete M x.id).map Prod.fst).Nodup := by
        have hsub : (mapDelete M x.id).Sublist M := List.filter_sublist M
        exact List.Nodup.sublist (hsub.map _) hnd
      have hcons : diffConsumed (x :: rest) M = y :: diffConsumed rest (mapDelete M x.id) := by
        simp [diffConsumed, hl]
      obtain ⟨hd1, hd2⟩ := measure_delete hnd hl L
      obtain ⟨hi1, hi2⟩ := ih (mapDelete M x.id) hndD L
      simp only [List.map_cons, List.foldl_cons, hcons, countItems_cons, sumSize_cons]
      constructor
      · rw [hd1, hi1]
        by_cases hy : y.Gauge = L <;> simp [hy] <;> omega
      · rw [hd2, hi2]
        by_cases hy : y.Gauge = L <;> simp [hy] <;> omega

/-- Full behaviour of the removal loop: retained skipped entries are appended
to the item list in order; the non-skipped entries are counted out of both
gauges. -/
theorem removeLoop_char : ∀ (R : List (Int × MediaItem)) (sk : List String)
    (items : List MediaItem) (g : GaugeState) (r : Nat),
    (removeLoop sk R items g r).1 =
      items ++ (R.filter (fun p => Contains sk p.2.sectionKey)).map Prod.snd ∧
    ∀ L,
    (removeLoop sk R items g r).2.1.count L =
      g.count L - countItems ((R.filter (fun p => !Contains sk p.2.sectionKey)).map Prod.snd) L ∧
    (removeLoop sk R items g r).2.1.bytes L =
      g.bytes L - sumSize ((R.filter (fun p => !Contains sk p.2.sectionKey)).map Prod.snd) L := by
  intro R
  induction R with
  | nil =>
    intro sk items g r
    exact ⟨by simp [removeLoop], fun L => by simp [removeLoop, countItems_nil, sumSize_nil]⟩
  | cons p rest ih =>
    intro sk items g r
    by_cases hc : Contains sk p.2.sectionKey = true
    · rw [removeLoop_cons_skip sk p rest items g r hc]
      obtain ⟨h1, h2⟩ := ih sk (items ++ [p.2]) g r
      refine ⟨?_, ?_⟩
      · rw [h1]
        simp [List.filter_cons, hc]
      · intro L
        obtain ⟨h2a, h2b⟩ := h2 L
        constructor
        · rw [h2a]
          simp [List.filter_cons, hc]
        · rw [h2b]
          simp [List.filter_cons, hc]
    · rw [removeLoop_cons_remove sk p rest items g r hc]
      obtain ⟨h1, h2⟩ := ih sk items
        { count := g.count.adjust p.2.Gauge (-1), bytes := g.bytes.adjust p.2.Gauge (-p.2.size) }
        (r + 1)
      refine ⟨?_, ?_⟩
      · rw [h1]
        simp [List.filter_cons, hc]
      · intro L
        obtain ⟨h2a, h2b⟩ := h2 L
        have hcb : Contains sk p.2.sectionKey = false := Bool.eq_false_iff.mpr hc
        constructor
        · rw [h2a]
          simp only [GaugeVec.adjust, List.filter_cons, hcb, Bool.not_false, if_true,
            List.map_cons, countItems_cons]
          by_cases hL : L = p.2.Gauge
          · simp [hL]
            omega
          · have hL2 : ¬(p.2.Gauge = L) := fun h => hL h.symm
            simp [hL, hL2]
        · rw [h2b]
          simp only [GaugeVec.adjust, List.filter_cons, hcb, Bool.not_false, if_true,
            List.map_cons, sumSize_cons]
          by_cases hL : L = p.2.Gauge
          · simp [hL]
            omega
          · have hL2 : ¬(p.2.Gauge = L) := fun h => hL h.symm
            simp [hL, hL2]

theorem filter_contains_snd_map_pair (l : List MediaItem) (sk : List String) :
    ((l.map (fun m => (m.id, m))).filter (fun p => Contains sk p.2.sectionKey)).map Prod.snd =
      l.filter (fun m => Contains sk m.sectionKey) := by
  induction l with
  | nil => rfl
  | cons x rest ih =>
    by_cases hx : Contains sk x.sectionKey
    · simp [List.map_cons, List.filter_cons, hx, ih]
    · simp [List.map_cons, List.filter_cons, hx, ih]

theorem filter_ncontains_snd_map_pair (l : List MediaItem) (sk : List String) :
    ((l.map (fun m => (m.id, m))).filter (fun p => !Contains sk p.2.sectionKey)).map Prod.snd =
      l.filter (fun m => !Contains sk m.sectionKey) := by
  induction l with
  | nil => rfl
  | cons x rest ih =>
    by_cases hx : Contains sk x.sectionKey
    · simp [List.map_cons, List.filter_cons, hx, ih]
    · simp [List.map_cons, List.filter_cons, hx, ih]

theorem countItems_contains_split (l : List MediaItem) (sk : List String) (L : Labels) :
    countItems l L = countItems (l.filter (fun m => Contains sk m.sectionKey)) L +
      countItems (l.filter (fun m => !Contains sk m.sectionKey)) L := by
  have := countItems_filter_split l (fun m => Contains sk m.sectionKey) L
  simpa using this

theorem sumSize_contains_split (l : List MediaItem) (sk : List String) (L : Labels) :
    sumSize l L = sumSize (l.filter (fun m => Contains sk m.sectionKey)) L +
      sumSize (l.filter (fun m => !Contains sk m.sectionKey)) L := by
  have := sumSize_filter_split l (fun m => Contains sk m.sectionKey) L
  simpa using this

/-- One successful cycle preserves the additivity invariant and id-uniqueness
of the snapshot, provided the fresh flat set has duplicate-free ids and every
unchanged-by-diff match keeps its label set and size. -/
theorem Collect_preserves_match (fuel : Nat) (client : PlexClient) (now : Int)
    (c : Collector) (g : GaugeState) (libs : List Library) (sk : List String)
    (news : List MediaItem)
    (hlibs : client.getLibraries = Except.ok libs)
    (hcl : collectLoop fuel client c.lastRun libs [] [] = (sk, Except.ok news))
    (hmatch : gaugesMatch c.mediaItems g)
    (hndold : (c.mediaItems.map (fun m => m.id)).Nodup)
    (hndnew : (news.map (fun m => m.id)).Nodup)
    (hgood : ∀ x ∈ news, ∀ y, mapLookup (buildOldMap c.mediaItems) x.id = some y →
      x.Diff y = false → y.Gauge = x.Gauge ∧ y.size = x.size) :
    gaugesMatch (Collect fuel client now c g).collector.mediaItems
      (Collect fuel client now c g).gauges ∧
    ((Collect fuel client now c g).collector.mediaItems.map (fun m => m.id)).Nodup := by
  simp only [Collect_unfold_ok fuel client now c g libs sk news hlibs hcl]
  have hmap : buildOldMap c.mediaItems = c.mediaItems.map (fun m => (m.id, m)) :=
    buildOldMap_eq hndold
  have hres : (diffLoop news (buildOldMap c.mediaItems) g 0 0).1 =
      (c.mediaItems.filter (fun m => decide (m.id ∉ news.map (fun m => m.id)))).map
        (fun m => (m.id, m)) := by
    rw [diffLoop_residual_eq, mapDeleteAll_eq_filter, hmap]
    exact filter_map_pair c.mediaItems (fun i => decide (i ∉ news.map (fun m => m.id)))
  have hkept : ((diffLoop news (buildOldMap c.mediaItems) g 0 0).1.filter
        (fun p => Contains sk p.2.sectionKey)).map Prod.snd =
      (c.mediaItems.filter (fun m => decide (m.id ∉ news.map (fun m => m.id)))).filter
        (fun m => Contains sk m.sectionKey) := by
    rw [hres]
    exact filter_contains_snd_map_pair _ sk
  have hnkept : ((diffLoop news (buildOldMap c.mediaItems) g 0 0).1.filter
        (fun p => !Contains sk p.2.sectionKey)).map Prod.snd =
      (c.mediaItems.filter (fun m => decide (m.id ∉ news.map (fun m => m.id)))).filter
        (fun m => !Contains sk m.sectionKey) := by
    rw [hres]
    exact filter_ncontains_snd_map_pair _ sk
  have hid2 : (Prod.snd ∘ fun m : MediaItem => (m.id, m)) = id := funext fun m => rfl
  have hvals : ((buildOldMap c.mediaItems).map Prod.snd) = c.mediaItems := by
    rw [hmap, List.map_map, hid2, List.map_id]
  have hfvals : (((news.map (fun m => m.id)).foldl mapDelete
        (buildOldMap c.mediaItems)).map Prod.snd) =
      c.mediaItems.filter (fun m => decide (m.id ∉ news.map (fun m => m.id))) := by
    rw [← diffLoop_residual_eq news (buildOldMap c.mediaItems) g 0 0, hres]
    rw [List.map_map, hid2, List.map_id]
  obtain ⟨hR1, hR2⟩ := removeLoop_char (diffLoop news (buildOldMap c.mediaItems) g 0 0).1
    sk news (diffLoop news (buildOldMap c.mediaItems) g 0 0).2.1 0
  have hndkeys : (((buildOldMap c.mediaItems).map Prod.fst).Nodup) := by
    rw [hmap]
    simpa [List.map_map, Function.comp] using hndold
  constructor
  · intro L
    obtain ⟨hG1, hG2⟩ := diffLoop_gauges news (buildOldMap c.mediaItems) g 0 0 hgood L
    obtain ⟨hS1, hS2⟩ := consumed_measure_split news (buildOldMap c.mediaItems) hndkeys L
    rw [hvals, hfvals] at hS1 hS2
    obtain ⟨hr2a, hr2b⟩ := hR2 L
    have hsplit1 := countItems_contains_split
      (c.mediaItems.filter (fun m => decide (m.id ∉ news.map (fun m => m.id)))) sk L
    have hsplit2 := sumSize_contains_split
      (c.mediaItems.filter (fun m => decide (m.id ∉ news.map (fun m => m.id)))) sk L
    have hm1 := (hmatch L).1
    have hm2 := (hmatch L).2
    constructor
    · rw [hr2a, hnkept, hG1, hR1, hkept, countItems_append]
      omega
    · rw [hr2b, hnkept, hG2, hR1, hkept, sumSize_append]
      omega
  · rw [hR1, hkept, List.map_append]
    apply List.Nodup.append
    · exact hndnew
    · have hsub : ((c.mediaItems.filter (fun m => decide (m.id ∉ news.map (fun m => m.id)))).filter
          (fun m => Contains sk m.sectionKey)).Sublist c.mediaItems :=
        (List.filter_sublist _).trans (List.filter_sublist _)
      exact List.Nodup.sublist (hsub.map _) hndold
    · intro a ha1 ha2
      obtain ⟨m, hm, hmid⟩ := List.mem_map.mp ha2
      have hm2 := List.mem_of_mem_filter hm
      have hm3 := List.of_mem_filter hm2
      simp only [decide_eq_true_eq] at hm3
      exact hm3 (hmid ▸ ha1)

/-- Decidable per-cycle wellformedness: the fetch phase succeeds, the fresh
flat set has duplicate-free ids, and every unchanged-by-diff match keeps its
label set and size (no silent media_type or size drift). -/
def cycleOK (fuel : Nat) (client : PlexClient) (c : Collector) : Bool :=
  match client.getLibraries with
  | Except.error _ => false
  | Except.ok libs =>
    match collectLoop fuel client c.lastRun libs [] [] with
    | (_, Except.error _) => false
    | (_, Except.ok news) =>
      decide ((news.map (fun m => m.id)).Nodup) &&
      news.all (fun x =>
        match mapLookup (buildOldMap c.mediaItems) x.id with
        | none => true
        | some y =>
          if x.Diff y then true
          else decide (y.Gauge = x.Gauge) && decide (y.size = x.size))

theorem cycleOK_spec (fuel : Nat) (client : PlexClient) (c : Collector)
    (h : cycleOK fuel client c = true) :
    ∃ libs sk news, client.getLibraries = Except.ok libs ∧
      collectLoop fuel client c.lastRun libs [] [] = (sk, Except.ok news) ∧
      (news.map (fun m => m.id)).Nodup ∧
      (∀ x ∈ news, ∀ y, mapLookup (buildOldMap c.mediaItems) x.id = some y →
        x.Diff y = false → y.Gauge = x.Gauge ∧ y.size = x.size) := by
  unfold cycleOK at h
  cases hlib : client.getLibraries with
  | error e => rw [hlib] at h; cases h
  | ok libs =>
    rw [hlib] at h
    rcases hcl : collectLoop fuel client c.lastRun libs [] [] with ⟨sk, res⟩
    cases res with
    | error e => simp only [hcl] at h; cases h
    | ok news =>
      simp only [hcl] at h
      simp only [Bool.and_eq_true, decide_eq_true_eq, List.all_eq_true] at h
      refine ⟨libs, sk, news, rfl, hcl, h.1, ?_⟩
      intro x hx y hlu hdf
      have hx2 := h.2 x hx
      simp only [hlu, hdf, Bool.false_eq_true, if_false, Bool.and_eq_true,
        decide_eq_true_eq] at hx2
      exact hx2

/-- Run a sequence of cycles, each with its own client data and clock value. -/
def runCycles (fuel : Nat) : List (PlexClient × Int) → Collector × GaugeState →
    Collector × GaugeState
  | [], s => s
  | (cl, t) :: rest, s =>
    runCycles fuel rest
      ((Collect fuel cl t s.1 s.2).collector, (Collect fuel cl t s.1 s.2).gauges)

/-- Every cycle of the run is wellformed (and in particular succeeds). -/
def goodRun (fuel : Nat) : List (PlexClient × Int) → Collector → GaugeState → Prop
  | [], _, _ => True
  | (cl, t) :: rest, c, g =>
    cycleOK fuel cl c = true ∧
    goodRun fuel rest (Collect fuel cl t c g).collector (Collect fuel cl t c g).gauges

theorem goodRun_invariant (fuel : Nat) : ∀ (cycles : List (PlexClient × Int))
    (c : Collector) (g : GaugeState),
    goodRun fuel cycles c g → gaugesMatch c.mediaItems g →
    (c.mediaItems.map (fun m => m.id)).Nodup →
    gaugesMatch (runCycles fuel cycles (c, g)).1.mediaItems (runCycles fuel cycles (c, g)).2 ∧
    ((runCycles fuel cycles (c, g)).1.mediaItems.map (fun m => m.id)).Nodup := by
  intro cycles
  induction cycles with
  | nil => intro c g _ hmatch hnd; exact ⟨hmatch, hnd⟩
  | cons p rest ih =>
    rcases p with ⟨cl, t⟩
    intro c g hrun hmatch hnd
    obtain ⟨hok, hrest⟩ := hrun
    obtain ⟨libs, sk, news, hlibs, hcl, hndnew, hgood⟩ := cycleOK_spec fuel cl c hok
    obtain ⟨hmatch2, hnd2⟩ := Collect_preserves_match fuel cl t c g libs sk news
      hlibs hcl hmatch hnd hndnew hgood
    exact ih (Collect fuel cl t c g).collector (Collect fuel cl t c g).gauges
      hrest hmatch2 hnd2

theorem goodRun_take (fuel : Nat) : ∀ (pre post : List (PlexClient × Int))
    (c : Collector) (g : GaugeState),
    goodRun fuel (pre ++ post) c g → goodRun fuel pre c g := by
  intro pre
  induction pre with
  | nil => intro post c g _; trivial
  | cons p rest ih =>
    rcases p with ⟨cl, t⟩
    intro post c g hrun
    exact ⟨hrun.1, ih post _ _ hrun.2⟩

/-- Claim C1 as amended: over any wellformed sequence of successful cycles
from the empty snapshot — each cycle's flat set has duplicate-free ids and no
unchanged-by-diff item changes its label set or size — after each cycle the
count gauge at every label 5-tuple equals the number of tracked items there
and the bytes gauge their summed size. -/
theorem claim_C1 (fuel : Nat) (pre post : List (PlexClient × Int))
    (hrun : goodRun fuel (pre ++ post) emptyCollector zeroGauges) (L : Labels) :
    (runCycles fuel pre (emptyCollector, zeroGauges)).2.count L =
      countItems (runCycles fuel pre (emptyCollector, zeroGauges)).1.mediaItems L ∧
    (runCycles fuel pre (emptyCollector, zeroGauges)).2.bytes L =
      sumSize (runCycles fuel pre (emptyCollector, zeroGauges)).1.mediaItems L := by
  have hpre := goodRun_take fuel pre post emptyCollector zeroGauges hrun
  have hbase : gaugesMatch emptyCollector.mediaItems zeroGauges :=
    fun L2 => ⟨rfl, rfl⟩
  have h := goodRun_invariant fuel pre emptyCollector zeroGauges hpre hbase List.nodup_nil
  exact h.1 L

/-- The label 5-tuple of the 2-channel aac/h264/1080 movie items. -/
def labelsA : Labels :=
  { audio_channels := "2", audio_codec := "aac", media_type := "movie"
    video_codec := "h264", video_resolution := "1080" }

theorem claim_C1_witness :
    (runCycles 1 [(client7, 200)] (emptyCollector, zeroGauges)).2.count labelsA =
      countItems (runCycles 1 [(client7, 200)] (emptyCollector, zeroGauges)).1.mediaItems
        labelsA :=
  (claim_C1 1 [(client7, 200)] [] ⟨by decide, trivial⟩ labelsA).1

/-- media5 after an on-disk size change: same four tracked fields, new size. -/
def media5b : Media := { media5 with part := [{ size := 2000 }] }

/-- The movie node of the stale library after the size change. -/
def movieMeta5b : Metadata := { movieMeta5 with media := [media5b] }

/-- The refreshed content of library 1. -/
def container1b : MediaContainer := { librarySectionID := 1, metadata := [movieMeta5b] }

/-- Library 1 as re-modified after the first cycle. -/
def lib1b : Library := { key := "1", updatedAt := 250 }

/-- The client of the second cycle: identical except that media5 grew to 2000
bytes and library 1 reports a fresh modification time. -/
def clientB : PlexClient :=
  { getLibraries := Except.ok [lib1b, lib2]
    getLibraryContent := fun k =>
      if k = "1" then Except.ok container1b
      else if k = "2" then Except.ok container2
      else Except.error "unexpected"
    getMetadataChildren := fun _ => Except.error "unexpected" }

/-- Counterexample to claim C1 as stated: two successful cycles from the empty
snapshot after which the bytes gauge no longer equals the summed size of the
tracked items — the second cycle stores the item's new 2000-byte record in the
snapshot but, the four tracked fields being unchanged, mutates no gauge, so
the bytes gauge still reads 1000. -/
theorem claim_C1_counterexample :
    (Collect 1 client7 200 emptyCollector zeroGauges).result = Except.ok (2, 0, 0) ∧
    (Collect 1 clientB 300 (Collect 1 client7 200 emptyCollector zeroGauges).collector
      (Collect 1 client7 200 emptyCollector zeroGauges).gauges).result =
        Except.ok (0, 0, 0) ∧
    (runCycles 1 [(client7, 200), (clientB, 300)] (emptyCollector, zeroGauges)).2.bytes
      labelsA = 1000 ∧
    sumSize (runCycles 1 [(client7, 200), (clientB, 300)]
      (emptyCollector, zeroGauges)).1.mediaItems labelsA = 2000 :=
  ⟨rfl, rfl, by decide, by decide⟩

end PlexCollector
